import Mathlib

/-!
Verification of the aggregation engine of `generate_report.py` (a SonarQube
report generator).  The Python code is shallowly embedded: Python strings are
`List Char` (`Str`), JSON payloads are structures, dictionaries are
insertion-ordered association lists, the HTTP transport is an oracle function
from requests to responses, and every fallible Python operation (non-2xx
response, `KeyError`, `ValueError`, `IndexError`, `ZeroDivisionError`) is an
explicit `Except`/`Option`.  The pagination `while` loop is modelled with
explicit fuel (`none` = fuel exhausted); all numeric parsing of metric values
is exact (decimal strings are parsed to an integer scaled by a power of ten
rather than to IEEE floats; exponents and special float syntax are not
modelled, and Python's `int()/chr()` error conditions outside the domains the
theorems use are noted at each definition).
-/

set_option maxRecDepth 4000

/-- Python strings are modelled as their exact character sequences. -/
abbrev Str := List Char

/-- Concatenation of a list of strings (Python string building by `+=`). -/
def flatCat : List Str → Str
  | [] => []
  | s :: rest => s ++ flatCat rest

/-- Python `str.split(".")`: split on every dot, keeping empty pieces.
`"abc" ↦ ["abc"]`, `"a.b" ↦ ["a","b"]`, `"" ↦ [""]`. -/
def splitDots : Str → List Str
  | [] => [[]]
  | c :: rest =>
    match splitDots rest with
    | [] => [[c]]
    | h :: t => if c = '.' then [] :: h :: t else (c :: h) :: t

/-- The expression `component.split(".")[-1]` (the list returned by `splitDots` is never
empty, so the default is never used). -/
def fileEnding (s : Str) : Str := (splitDots s).getLastD []

/-- Decimal digit list of a natural number, exactly as Python's `f"{n}"`
renders a nonnegative `int` (and as Lean's `Nat.repr` does). -/
def natRepr (n : Nat) : Str := Nat.toDigits 10 n

/-- Python `f"{i}"` for an `int`, including the sign. -/
def intRepr : Int → Str
  | .ofNat n => natRepr n
  | .negSucc n => '-' :: natRepr (n + 1)

/-- One character of `html.escape` (quote=True). -/
def escChar (c : Char) : Str :=
  if c = '&' then "&amp;".data
  else if c = '<' then "&lt;".data
  else if c = '>' then "&gt;".data
  else if c = Char.ofNat 34 then "&quot;".data
  else if c = Char.ofNat 39 then "&#x27;".data
  else [c]

/-- Python `html.escape(message)` as used at line 82 of the source. -/
def html_escape (s : Str) : Str := flatCat (s.map escChar)

/-- Lexicographic strict comparison of Python strings (code-point order). -/
def strLt : Str → Str → Bool
  | [], [] => false
  | [], _ :: _ => true
  | _ :: _, [] => false
  | a :: as, b :: bs => if a = b then strLt as bs else decide (a < b)

/-- Lexicographic `<=` on Python strings. -/
def strLe : Str → Str → Bool
  | [], _ => true
  | _ :: _, [] => false
  | a :: as, b :: bs => if a = b then strLe as bs else decide (a < b)

/-- Python `list.index(x)`, the first index of `x`; the callers below guard the
`ValueError` case (`x` absent) explicitly, so the bare index is total. -/
def idxOf (l : List Str) (s : Str) : Nat := l.findIdx (fun x => decide (x = s))

/-- Insertion-ordered dictionary lookup (`d[k]` guarded by presence). -/
def dictLookup {α : Type} (d : List (Str × α)) (k : Str) : Option α :=
  (d.find? (fun p => decide (p.1 = k))).map (fun p => p.2)

/-- Python `d[k] = v` on an insertion-ordered dict: an existing key keeps its
position but its value is replaced; a new key is appended. -/
def dictInsert {α : Type} (d : List (Str × α)) (k : Str) (v : α) : List (Str × α) :=
  if d.any (fun p => decide (p.1 = k)) then
    d.map (fun p => if p.1 = k then (k, v) else p)
  else d ++ [(k, v)]

/-- Python `str.replace(pat, rep)` on character lists: leftmost,
non-overlapping, all occurrences.  Structural recursion on a fuel that starts
at the string length (enough, since every step consumes at least one
character; the patterns used are the nonempty template placeholders). -/
def replaceAux (pat rep : Str) : Nat → Str → Str
  | _, [] => []
  | 0, s => s
  | fuel + 1, c :: rest =>
    if pat ≠ [] ∧ pat.isPrefixOf (c :: rest) then
      rep ++ replaceAux pat rep fuel ((c :: rest).drop pat.length)
    else c :: replaceAux pat rep fuel rest

/-- Python `s.replace(pat, rep)`. -/
def replaceAll (s pat rep : Str) : Str := replaceAux pat rep s.length s

/-- Stable sort by a boolean `<=` test: each element is inserted after every
already-placed element that compares `<=` to it.  For a total preorder this
is exactly the (unique) stable sort, hence the model of Python `sorted`. -/
def insertS {α : Type} (le : α → α → Bool) (a : α) : List α → List α
  | [] => [a]
  | b :: l => if le b a then b :: insertS le a l else a :: b :: l

/-- Python `sorted(l, key=...)`, with `le` the induced total preorder. -/
def pySorted {α : Type} (le : α → α → Bool) (l : List α) : List α :=
  l.foldl (fun acc a => insertS le a acc) []

/-- Value of a digit character. -/
def digitVal? (c : Char) : Option Nat :=
  if '0' ≤ c ∧ c ≤ '9' then some (c.toNat - 48) else none

/-- Value of a nonempty all-digit string. -/
def digitsVal? (s : Str) : Option Nat :=
  match s with
  | [] => none
  | _ => s.foldlM (fun a c => (digitVal? c).map (fun d => 10 * a + d)) 0

/-- Python `int(s)` on the strings this program feeds it (optional sign and
decimal digits; whitespace/underscore forms are not modelled). `none` is
Python's `ValueError`. -/
def pyInt? (s : Str) : Option Int :=
  match s with
  | '-' :: rest => (digitsVal? rest).map (fun n => -(n : Int))
  | '+' :: rest => (digitsVal? rest).map (fun n => (n : Int))
  | _ => (digitsVal? s).map (fun n => (n : Int))

/-- Python `float(s)` for plain decimal strings, parsed exactly: the result
`(n, k)` denotes the rational `n / 10 ^ k`.  Exponent/`inf`/`nan` forms are
not modelled; `none` is Python's `ValueError`. -/
def pyFloat? (s : Str) : Option (Int × Nat) :=
  let core : Str → Option (Nat × Nat) := fun body =>
    match splitDots body with
    | [d] => (digitsVal? d).map (fun n => (n, 0))
    | [a, b] =>
      if a = [] ∧ b = [] then none
      else
        match (if a = [] then some 0 else digitsVal? a),
              (if b = [] then some 0 else digitsVal? b) with
        | some av, some bv => some (av * 10 ^ b.length + bv, b.length)
        | _, _ => none
    | _ => none
  match s with
  | '-' :: rest => (core rest).map (fun p => (-(p.1 : Int), p.2))
  | '+' :: rest => (core rest).map (fun p => ((p.1 : Int), p.2))
  | _ => (core s).map (fun p => ((p.1 : Int), p.2))

/-- Truncation toward zero of the scaled decimal `(n, k)`, i.e. Python
`int(x)` applied to the float value `n / 10 ^ k`. -/
def decTrunc (d : Int × Nat) : Int :=
  if 0 ≤ d.1 then Int.ofNat (d.1.toNat / 10 ^ d.2)
  else -Int.ofNat ((-d.1).toNat / 10 ^ d.2)

/-! ### Taxonomies and metric-policy tables (source lines 16-21) -/

def ISSUE_SEVERITIES : List Str :=
  ["BLOCKER".data, "CRITICAL".data, "MAJOR".data, "MINOR".data, "INFO".data]

def IMPACT_SEVERITIES : List Str :=
  ["BLOCKER".data, "HIGH".data, "MEDIUM".data, "LOW".data, "INFO".data]

def CONVERT_TO_GRADES : List Str :=
  ["reliability_rating".data, "security_rating".data, "sqale_rating".data]

def PERCENTAGE_METRICS : List Str :=
  ["security_hotspots_reviewed".data, "line_coverage".data]

def ISSUE_TYPES : List Str :=
  ["CODE_SMELL".data, "BUG".data, "VULNERABILITY".data]

def IMPACT_TYPES : List Str :=
  ["SECURITY".data, "RELIABILITY".data, "MAINTAINABILITY".data]

/-! ### Data model -/

/-- The server's `textRange` object. -/
structure TextRange where
  startLine : Int
  endLine : Int
  startOffset : Int
  endOffset : Int
deriving DecidableEq

/-- One raw issue record of an `/api/issues/search` page.  The code reads
only `impacts[0]`, so the `impacts` array is modelled by the two fields of
its first element (the code would raise `IndexError` on an empty array; that
situation is outside every claim and not modelled). -/
structure RawIssue where
  key : Str
  component : Str
  message : Str
  severity : Str
  impactSeverity : Str
  itype : Str
  impactQuality : Str
  rule : Str
  effort : Str
  textRange : Option TextRange
deriving DecidableEq

/-- The `issue_entry` dict built at lines 80-95; `textRange = some _` models
the presence of the `startline`/`endline`/`startoffset`/`endoffset` keys. -/
structure IssueEntry where
  component : Str
  message : Str
  severity : Str
  itype : Str
  rule : Str
  effort : Str
  textRange : Option TextRange
deriving DecidableEq

/-- JSON payload of one `/api/issues/search` page. -/
structure IssuesPage where
  issues : List RawIssue
  total : Nat
  ps : Nat
  effortTotal : Int
  debtTotal : Option Int
deriving DecidableEq

/-- An HTTP response: status code, body text, and (for status 200) the
decoded JSON payload. -/
structure Resp (α : Type) where
  status : Nat
  text : Str
  payload : α

/-- The helper `_get` (source lines 35-40): a non-200 status prints
`"Failed to fetch data: " + resp.text` and exits the process; the error
value carries that printed message. -/
def _get {α : Type} (r : Resp α) : Except Str α :=
  if r.status = 200 then .ok r.payload
  else .error ("Failed to fetch data: ".data ++ r.text)

/-- A Python error that escapes to the top level: either the handled
non-2xx abort of `_get` (which prints its message and calls `sys.exit(1)`)
or an unhandled exception (`KeyError` / `ValueError` / `IndexError` /
`ZeroDivisionError`), which also terminates the run with a nonzero exit but
prints nothing on stdout. -/
inductive PyErr where
  | httpFail (msg : Str)
  | exc (msg : Str)
deriving DecidableEq

/-! ### fetch_issues (source lines 60-106) -/

/-- The pseudonymization state local to one `fetch_issues` call:
`file_names` insertion-ordered dict and `file_counter` (lines 64-65). -/
structure AnonState where
  fileNames : List (Str × Str)
  fileCounter : Nat
deriving DecidableEq

/-- The alias `f"file_{k}.{ending}"`. -/
def mkAlias (k : Nat) (ending : Str) : Str :=
  "file_".data ++ natRepr k ++ '.' :: ending

/-- Lines 71-76: translate one component path under pseudonymization,
assigning a fresh counter-based alias on first sight. -/
def anonComponent (st : AnonState) (component : Str) : Str × AnonState :=
  match dictLookup st.fileNames component with
  | some a => (a, st)
  | none =>
    let a := mkAlias st.fileCounter (fileEnding component)
    (a, ⟨st.fileNames ++ [(component, a)], st.fileCounter + 1⟩)

/-- Accumulator of the page loop: the `issues` dict keyed by issue key and
the pseudonymization state. -/
structure FetchState where
  issues : List (Str × IssueEntry)
  anon : AnonState
deriving DecidableEq

def initFetchState : FetchState := ⟨[], ⟨[], 1⟩⟩

/-- Lines 69-97: process one raw issue into the accumulating `issues` dict. -/
def processIssue (anonymous impact_details impact_qualities : Bool)
    (st : FetchState) (issue : RawIssue) : FetchState :=
  let ca := if anonymous then anonComponent st.anon issue.component
            else (issue.component, st.anon)
  let severity := if impact_details then issue.impactSeverity else issue.severity
  let itype := if impact_qualities then issue.impactQuality else issue.itype
  let entry : IssueEntry :=
    ⟨ca.1, html_escape issue.message, severity, itype, issue.rule, issue.effort,
      issue.textRange⟩
  ⟨dictInsert st.issues issue.key entry, ca.2⟩

/-- Python `math.ceil(total / ps)` for `ps > 0` (the `ps = 0` division error is
handled at the call site). -/
def ceilPages (total ps : Nat) : Nat := (total + ps - 1) / ps

/-- The `while p <= total_pages` loop of lines 66-100.  `server` maps a page
number to the response of the issue-search request for that page; `last`
holds the payload bound to `data` by the previous iteration; `reqs` records
the page numbers requested so far.  `none` = fuel exhausted (the real loop
diverges if the server keeps growing `total`). -/
def fetchLoop (server : Nat → Resp IssuesPage)
    (anonymous impact_details impact_qualities : Bool) :
    Nat → Nat → Nat → FetchState → Option IssuesPage → List Nat →
    Option (Except PyErr (FetchState × IssuesPage) × List Nat)
  | 0, _, _, _, _, _ => none
  | fuel + 1, p, total_pages, st, last, reqs =>
    if p ≤ total_pages then
      match _get (server p) with
      | .error e => some (.error (.httpFail e), reqs ++ [p])
      | .ok data =>
        let st' := data.issues.foldl
          (processIssue anonymous impact_details impact_qualities) st
        if data.ps = 0 then
          some (.error (.exc "ZeroDivisionError: division by zero".data), reqs ++ [p])
        else
          fetchLoop server anonymous impact_details impact_qualities
            fuel (p + 1) (ceilPages data.total data.ps) st' (some data) (reqs ++ [p])
    else
      match last with
      | some data => some (.ok (st, data), reqs)
      | none => none

/-- The function `fetch_issues` (lines 60-106), returning the issues dict, the effort
total and the debt total, paired with the list of requested page numbers.
The `debtTotal`/`effortTotal` fallback of lines 102-105 is the `match` on
`data.debtTotal`. -/
def fetch_issues (server : Nat → Resp IssuesPage)
    (anonymous impact_details impact_qualities : Bool) (fuel : Nat) :
    Option (Except PyErr (List (Str × IssueEntry) × Int × Int) × List Nat) :=
  match fetchLoop server anonymous impact_details impact_qualities
      fuel 1 1 initFetchState none [] with
  | none => none
  | some (.error e, reqs) => some (.error e, reqs)
  | some (.ok (st, data), reqs) =>
    let debt := match data.debtTotal with
      | some d => d
      | none => data.effortTotal
    some (.ok (st.issues, data.effortTotal, debt), reqs)

/-! ### Metrics (source lines 42-54, 108-122) -/

/-- The helper `_convert_to_grade` (lines 42-43): `chr(ord("A") + int(float(rating)) - 1)`
as a one-character string.  `none` is the `ValueError` of `float(...)`;
`Int.toNat` clamps the (never exercised) `chr` argument below zero, where
Python would instead raise. -/
def _convert_to_grade (rating : Str) : Option Str :=
  (pyFloat? rating).map (fun d => [Char.ofNat (Int.toNat (65 + decTrunc d - 1))])

/-- The helper `_convert_to_readable_time` (lines 51-54).  The `//` and `%` are only
reached for `minutes >= 60`, where Python floor division agrees with `Int`
division. -/
def _convert_to_readable_time (minutes : Int) : Str :=
  if minutes ≥ 60 then
    intRepr (minutes / 60) ++ "h ".data ++ intRepr (minutes % 60) ++ "min".data
  else intRepr minutes ++ "min".data

/-- One element of `data["component"]["measures"]`. -/
structure Measure where
  metric : Str
  value : Str
deriving DecidableEq

/-- One element of the `data["metrics"]` catalog. -/
structure CatalogEntry where
  key : Str
  name : Str
deriving DecidableEq

/-- JSON payload of `/api/measures/component`. -/
structure MeasuresPayload where
  measures : List Measure
  metrics : List CatalogEntry
deriving DecidableEq

/-- The helper `_get_metric_name_from_key` (lines 45-49). -/
def _get_metric_name_from_key (key : Str) (metrics : List CatalogEntry) : Str :=
  match metrics.find? (fun m => decide (m.key = key)) with
  | some m => m.name
  | none => key

/-- One iteration of the measures loop (lines 112-121). -/
def metricsStep (catalog : List CatalogEntry) (ms : List (Str × Str))
    (m : Measure) : Except PyErr (List (Str × Str)) :=
  let name := _get_metric_name_from_key m.metric catalog
  if CONVERT_TO_GRADES.contains m.metric then
    match _convert_to_grade m.value with
    | some g => .ok (dictInsert ms name g)
    | none => .error (.exc "ValueError: could not convert string to float".data)
  else if PERCENTAGE_METRICS.contains m.metric then
    .ok (dictInsert ms name (m.value ++ ['%']))
  else if m.metric = "sqale_index".data then
    match pyInt? m.value with
    | some i => .ok (dictInsert ms name (_convert_to_readable_time i))
    | none => .error (.exc "ValueError: invalid literal for int".data)
  else .ok (dictInsert ms name m.value)

/-- The function `fetch_metrics` (lines 108-122): build the display-name-keyed metrics
dict, applying the grade / percentage / duration / passthrough policies.
`.exc` errors are the unhandled `ValueError`s of `float()`/`int()`. -/
def fetch_metrics (resp : Resp MeasuresPayload) :
    Except PyErr (List (Str × Str)) :=
  match _get resp with
  | .error e => .error (.httpFail e)
  | .ok data => data.measures.foldlM (metricsStep data.metrics) []

/-! ### HTML formatting (source lines 129-202) -/

/-- The `amounts` dict: severity label to per-type counter list. -/
abbrev Amounts := List (Str × List Nat)

/-- Line 154: `{severity: [0 for _ in TYPES] for severity in SEVERITIES}`. -/
def initAmounts (sevs types : List Str) : Amounts :=
  sevs.map (fun s => (s, types.map (fun _ => 0)))

/-- The update `amounts[sev][ti] += 1` on the first row keyed `sev`; `none` models the
`KeyError` (missing severity row) or `IndexError` (type index out of range),
neither of which is reachable from `initAmounts`-shaped input. -/
def bump (am : Amounts) (sev : Str) (ti : Nat) : Option Amounts :=
  match am with
  | [] => none
  | p :: rest =>
    if p.1 = sev then
      if ti < p.2.length then some ((p.1, p.2.modify (· + 1) ti) :: rest)
      else none
    else (bump rest sev ti).map (fun r => p :: r)

/-- The sort key of line 156,
`(SEVERITIES.index(item[1]["severity"]), item[1]["component"])`, as the
boolean `<=` of the lexicographic tuple order used by `sorted`. -/
def sortKeyLe (sevs : List Str) (a b : Str × IssueEntry) : Bool :=
  let ia := idxOf sevs a.2.severity
  let ib := idxOf sevs b.2.severity
  decide (ia < ib) || (decide (ia = ib) && strLe a.2.component b.2.component)

/-- The `lines_info` cell of lines 162-165. -/
def linesInfo (e : IssueEntry) : Str :=
  match e.textRange with
  | some tr =>
    "Lines: ".data ++ intRepr tr.startLine ++ ['-'] ++ intRepr tr.endLine
      ++ "<br>Offset: ".data ++ intRepr tr.startOffset ++ ['-']
      ++ intRepr tr.endOffset
  | none => "N/A".data

/-- One `<tr>` of the issue table (line 167). -/
def issueRow (e : IssueEntry) : Str :=
  "<tr><td class=\x27small\x27>".data ++ e.component ++ "</td><td>".data
    ++ e.message ++ "</td><td>".data ++ e.severity ++ "</td><td>".data
    ++ e.itype ++ "</td><td>".data ++ linesInfo e ++ "</td><td>".data
    ++ e.rule ++ "</td><td>".data ++ e.effort ++ "</td></tr>".data

/-- One iteration of the loop at lines 158-167: `TYPES.index` the type,
increment the matrix cell, append the row. -/
def tblStep (types : List Str) (acc : Str × Amounts) (it : Str × IssueEntry) :
    Except PyErr (Str × Amounts) :=
  match types.findIdx? (fun t => decide (t = it.2.itype)) with
  | none => Except.error (PyErr.exc "ValueError: not in list".data)
  | some ti =>
    match bump acc.2 it.2.severity ti with
    | some am => Except.ok (acc.1 ++ issueRow it.2, am)
    | none => Except.error (PyErr.exc "KeyError".data)

/-- The function `_format_issue_table` (lines 152-170): sort the issue dict items by
(severity rank, component), then fold over the sorted items building the
HTML rows and incrementing one `amounts` cell per issue.  `.exc` errors are
the `ValueError` of `SEVERITIES.index`/`TYPES.index` on labels outside the
selected taxonomy (Python's `sorted` evaluates every key before comparing,
hence the up-front `all` check) and the unreachable `KeyError`. -/
def _format_issue_table (sevs types : List Str)
    (issues : List (Str × IssueEntry)) : Except PyErr (Str × Amounts) :=
  if issues.all (fun it => sevs.contains it.2.severity) then
    let sorted_issues := pySorted (sortKeyLe sevs) issues
    match sorted_issues.foldlM (tblStep types)
        (("<table><tr><th>Component</th><th>Message</th><th>Severity</th>"
          ++ "<th>Type</th><th>Lines</th><th>Rule</th><th>Effort</th></tr>").data,
          initAmounts sevs types) with
    | .error e => .error e
    | .ok r => .ok (r.1 ++ "</table>".data, r.2)
  else .error (.exc "ValueError: not in list".data)

/-- The function `_format_severity_summary` (lines 129-150).  `none` models the
`KeyError`/`IndexError` on an `amounts` dict lacking a severity row or a
type column (unreachable for matrices produced by `_format_issue_table`). -/
def _format_severity_summary (sevs types : List Str) (amounts : Amounts) :
    Option Str := do
  let header := "<table class=\x27small severities\x27><tr><th></th>".data
    ++ flatCat (types.map (fun t => "<th>".data ++ t ++ "</th>".data))
    ++ "<th>Total</th></tr>".data
  let rows ← sevs.foldlM (fun (acc : Str × Nat) sev => do
    let row ← dictLookup amounts sev
    if types.length ≤ row.length then
      let cells := (List.range types.length).map (fun t => row.getD t 0)
      some (acc.1 ++ "<tr><td>".data ++ sev ++ "</td>".data
        ++ flatCat (cells.map (fun c =>
             "<td>".data ++ natRepr c ++ "</td>".data))
        ++ "<td><strong>".data ++ natRepr cells.sum
        ++ "</strong></td></tr>".data,
        acc.2 + cells.sum)
    else none) (header, 0)
  let cols ← types.foldlM (fun (acc : Str) t => do
    let ti := idxOf types t
    let col ← sevs.foldlM (fun (s : Nat) sev => do
      let row ← dictLookup amounts sev
      let v ← row.get? ti
      some (s + v)) 0
    some (acc ++ "<td><strong>".data ++ natRepr col ++ "</strong></td>".data))
    ("<tr><td><strong>Total</strong></td>".data)
  some (rows.1 ++ cols ++ "<td><strong>".data ++ natRepr rows.2
    ++ "</strong></td></tr></table>".data)

/-- The function `_format_measure_table` (lines 172-177). -/
def _format_measure_table (metrics : List (Str × Str)) : Str :=
  "<table><tr><th>Metric</th><th>Value</th></tr>".data
    ++ flatCat (metrics.map (fun p =>
         "<tr><td>".data ++ p.1 ++ "</td><td>".data ++ p.2 ++ "</td></tr>".data))
    ++ "</table>".data

/-- Template placeholders (the `${...}` tokens of the opaque templates). -/
def phPROJECT : Str := "$\x7bPROJECT_ID\x7d".data
def phSEVERITIES : Str := "$\x7bSEVERITIES\x7d".data
def phMEASURES : Str := "$\x7bMEASURES\x7d".data
def phISSUES : Str := "$\x7bISSUES\x7d".data
def phDATE : Str := "$\x7bDATE\x7d".data
def phOVERALL : Str := "$\x7bOVERALL\x7d".data
def phCONTENTS : Str := "$\x7bCONTENTS\x7d".data
def phTOTALS : Str := "$\x7bTOTAL_AMOUNTS\x7d".data

/-- The function `format_issues` (lines 179-192) over the already-loaded per-project
template string. -/
def format_issues (tplIssues : Str) (sevs types : List Str)
    (issues : List (Str × IssueEntry)) (metrics : List (Str × Str))
    (project_id : Str) (include_issue_details : Bool) :
    Except PyErr (Str × Amounts) :=
  match _format_issue_table sevs types issues with
  | .error e => .error e
  | .ok (table, amounts) =>
    match _format_severity_summary sevs types amounts with
    | none => .error (.exc "KeyError".data)
    | some severity_table =>
      let measure_table := _format_measure_table metrics
      let d1 := replaceAll tplIssues phPROJECT project_id
      let d2 := replaceAll d1 phSEVERITIES severity_table
      let d3 := replaceAll d2 phMEASURES measure_table
      let table' := if include_issue_details then table else []
      .ok (replaceAll d3 phISSUES table', amounts)

/-- The roll-up of lines 249-251:
`total_severity_amounts[severity][x] += amounts[severity][x]` for every
severity of `sevs` and every `x < len(types)`.  `dictModify?` updates the
first row with the given key, `none` modelling `KeyError`/`IndexError`. -/
def dictModify? (d : Amounts) (k : Str) (f : List Nat → Option (List Nat)) :
    Option Amounts :=
  match d with
  | [] => none
  | p :: rest =>
    if p.1 = k then (f p.2).map (fun r => (k, r) :: rest)
    else (dictModify? rest k f).map (fun r => p :: r)

/-- The body of the inner `for x in range(len(TYPES))` loop of lines 250-251. -/
def rollStep (am : Amounts) (sev : Str) (t2 : Amounts) (x : Nat) :
    Option Amounts := do
  let arow ← dictLookup am sev
  let av ← arow.get? x
  dictModify? t2 sev (fun row => (row.get? x).map (fun tv => row.set x (tv + av)))

/-- The body of the outer `for severity in SEVERITIES` loop of line 249. -/
def sevRoll (types : List Str) (am : Amounts) (t : Amounts) (sev : Str) :
    Option Amounts :=
  (List.range types.length).foldlM (rollStep am sev) t

/-- Element-wise matrix accumulation (lines 249-251). -/
def rollup_amounts (sevs types : List Str) (total am : Amounts) :
    Option Amounts :=
  sevs.foldlM (sevRoll types am) total

/-- The function `format_overall` (lines 194-202). -/
def format_overall (tplOverall : Str) (sevs types : List Str)
    (total_overall : List (Str × Str)) (total_severity_amounts : Amounts) :
    Except PyErr Str :=
  match _format_severity_summary sevs types total_severity_amounts with
  | none => .error (.exc "KeyError".data)
  | some severity_table =>
    let total_table := _format_measure_table total_overall
    let d1 := replaceAll tplOverall phSEVERITIES severity_table
    .ok (replaceAll d1 phTOTALS total_table)

/-! ### The `__main__` run (source lines 205-270) -/

/-- Parsed CLI flags; `projects` is the project list after the optional
file-of-identifiers resolution of lines 223-227 (file I/O is an external
collaborator and not modelled). -/
structure Args where
  projects : List Str
  include_issue_details : Bool
  anonymous : Bool
  impact_severities : Bool
  impact_qualities : Bool

/-- Line 210: the run-wide severity vocabulary. -/
def selSeverities (args : Args) : List Str :=
  if args.impact_severities then IMPACT_SEVERITIES else ISSUE_SEVERITIES

/-- Line 211: the run-wide type vocabulary. -/
def selTypes (args : Args) : List Str :=
  if args.impact_qualities then IMPACT_TYPES else ISSUE_TYPES

/-- The three opaque template files. -/
structure Templates where
  issuesTable : Str
  overallData : Str
  report : Str

/-- The remote server as an oracle: a response for every issue-search page
request and for every measures request. -/
structure Server where
  issuesResp : Str → Nat → Resp IssuesPage
  measuresResp : Str → Resp MeasuresPayload

/-- One HTTP request the run can perform. -/
inductive Req where
  | issuesReq (project : Str) (page : Nat)
  | measuresReq (project : Str)
deriving DecidableEq

/-- Status code the oracle answers a request with. -/
def reqStatus (sv : Server) : Req → Nat
  | .issuesReq pr p => (sv.issuesResp pr p).status
  | .measuresReq pr => (sv.measuresResp pr).status

/-- Response body text for a request. -/
def reqText (sv : Server) : Req → Str
  | .issuesReq pr p => (sv.issuesResp pr p).text
  | .measuresReq pr => (sv.measuresResp pr).text

/-- Observable outcome of a run: process exit code, everything written to
stdout by `print`, the files written, and the HTTP requests performed, in
order. -/
structure MainOut where
  exitCode : Nat
  printed : List Str
  written : List (Str × Str)
  requests : List Req
deriving DecidableEq

/-- Abort outcome: `_get` prints its message and exits 1 (lines 37-39); an
unhandled exception also exits nonzero but prints its traceback to stderr,
not stdout.  Nothing has been written in either case. -/
def errOut (e : PyErr) (reqs : List Req) : MainOut :=
  match e with
  | .httpFail msg => ⟨1, [msg], [], reqs⟩
  | .exc _ => ⟨1, [], [], reqs⟩

/-- The accumulators of the per-project loop (lines 213-221). -/
structure RunTotals where
  issues_data : Str
  total_effort : Int
  total_debt : Int
  total_hotspots : Int
  total_loc : Int
  total_complexity : Int
  amounts : Amounts
  project_counter : Nat

def initTotals (args : Args) : RunTotals :=
  ⟨[], 0, 0, 0, 0, 0, initAmounts (selSeverities args) (selTypes args), 1⟩

/-- Lines 244-247: `try: total_complexity += int(...) except KeyError: pass`.
Only the missing key is caught; a non-integer value still raises. -/
def addComplexity (metrics : List (Str × Str)) (tc : Int) : Except PyErr Int :=
  match dictLookup metrics ("Cyclomatic Complexity".data) with
  | none => .ok tc
  | some v =>
    match pyInt? v with
    | none => .error (.exc "ValueError: invalid literal for int".data)
    | some i => .ok (tc + i)

/-- Lines 242-243: the uncaught `int(data["metrics"][name])` lookups. -/
def intMetric (metrics : List (Str × Str)) (name : Str) : Except PyErr Int :=
  match dictLookup metrics name with
  | none => .error (.exc "KeyError".data)
  | some v =>
    match pyInt? v with
    | none => .error (.exc "ValueError: invalid literal for int".data)
    | some i => .ok i

/-- The `for project_key in projects` loop of lines 229-252 followed by the
assembly and single `report.html` write of lines 254-267.  `dateStr` stands
for `datetime.now().strftime(...)`; `reqs` is the request trace so far;
`none` = pagination fuel exhausted. -/
def runLoop (tpl : Templates) (sv : Server) (args : Args) (dateStr : Str)
    (fuel : Nat) : List Str → RunTotals → List Req → Option MainOut
  | [], tot, reqs =>
    let overall_data : List (Str × Str) :=
      [("Total Effort".data, _convert_to_readable_time tot.total_effort),
       ("Total Debt".data, _convert_to_readable_time tot.total_debt),
       ("Security Hotspots".data, intRepr tot.total_hotspots),
       ("Lines of Code".data, intRepr tot.total_loc),
       ("Cyclomatic Complexity".data, intRepr tot.total_complexity)]
    match format_overall tpl.overallData (selSeverities args) (selTypes args)
        overall_data tot.amounts with
    | .error e => some (errOut e reqs)
    | .ok overall =>
      let d1 := replaceAll tpl.report phDATE dateStr
      let d2 := replaceAll d1 phOVERALL overall
      let document := replaceAll d2 phCONTENTS tot.issues_data
      some ⟨0, [], [("report.html".data, document)], reqs⟩
  | project :: rest, tot, reqs =>
    match fetch_issues (sv.issuesResp project) args.anonymous
        args.impact_severities args.impact_qualities fuel with
    | none => none
    | some (.error e, preqs) =>
      some (errOut e (reqs ++ preqs.map (Req.issuesReq project)))
    | some (.ok (issues, effort, debt), preqs) =>
      let reqs2 := reqs ++ preqs.map (Req.issuesReq project)
        ++ [Req.measuresReq project]
      match fetch_metrics (sv.measuresResp project) with
      | .error e => some (errOut e reqs2)
      | .ok metrics =>
        let pidc : Str × Nat :=
          if args.anonymous
          then ("Project ".data ++ natRepr tot.project_counter,
                tot.project_counter + 1)
          else (project, tot.project_counter)
        match format_issues tpl.issuesTable (selSeverities args)
            (selTypes args) issues metrics pidc.1
            args.include_issue_details with
        | .error e => some (errOut e reqs2)
        | .ok (t, amounts) =>
          match intMetric metrics ("Security Hotspots".data) with
          | .error e => some (errOut e reqs2)
          | .ok hs =>
            match intMetric metrics ("Lines of Code".data) with
            | .error e => some (errOut e reqs2)
            | .ok loc =>
              match addComplexity metrics tot.total_complexity with
              | .error e => some (errOut e reqs2)
              | .ok tc =>
                match rollup_amounts (selSeverities args) (selTypes args)
                    tot.amounts amounts with
                | none => some (errOut (.exc "KeyError".data) reqs2)
                | some am =>
                  runLoop tpl sv args dateStr fuel rest
                    ⟨tot.issues_data ++ t, tot.total_effort + effort,
                     tot.total_debt + debt, tot.total_hotspots + hs,
                     tot.total_loc + loc, tc, am, pidc.2⟩ reqs2

/-- The whole `__main__` run. -/
def runMain (tpl : Templates) (sv : Server) (args : Args) (dateStr : Str)
    (fuel : Nat) : Option MainOut :=
  runLoop tpl sv args dateStr fuel args.projects (initTotals args) []

/-! ### Specification-side definitions -/

/-- Sum of every cell of a severity-by-type matrix. -/
def cellSum (am : Amounts) : Nat := (am.map (fun p => p.2.sum)).sum

/-- The grade table of the specification: 1 maps to A, ..., 5 maps to E. -/
def gradeLetter (t : Int) : Char :=
  if t = 1 then 'A' else if t = 2 then 'B' else if t = 3 then 'C'
  else if t = 4 then 'D' else if t = 5 then 'E' else '?'

/-- Alias stream of one `fetch_issues` call: the alias every successive
component occurrence receives from the threaded `anonComponent` state. -/
def anonaux : AnonState → List Str → List Str
  | _, [] => []
  | st, c :: cs =>
    let r := anonComponent st c
    r.1 :: anonaux r.2 cs

/-- Aliases produced from the fresh per-call state of lines 64-65. -/
def anonAliases (cs : List Str) : List Str := anonaux ⟨[], 1⟩ cs

/-- Distinct values in order of first occurrence, seeded with `seen`. -/
def firstSeenAux (seen : List Str) : List Str → List Str
  | [] => []
  | c :: cs =>
    if seen.contains c then firstSeenAux seen cs
    else c :: firstSeenAux (seen ++ [c]) cs

/-- Distinct values of a list in order of first occurrence. -/
def firstSeen (cs : List Str) : List Str := firstSeenAux [] cs

/-- Decimal value of a digit string (used to invert `natRepr`). -/
def decodeDigits (l : Str) : Nat := l.foldl (fun a c => 10 * a + (c.toNat - 48)) 0

/-- Well-formedness of an `amounts` matrix for the selected vocabularies:
one row per severity, in order, each row one counter per type. -/
def amountsWF (sevs types : List Str) (am : Amounts) : Prop :=
  am.map (fun p => p.1) = sevs ∧ ∀ p ∈ am, p.2.length = types.length

deriving instance DecidableEq for Except

/-! ### Concrete inputs used by counterexamples and witnesses -/

/-- Two distinct issues sharing severity and component (they differ in
message and key). -/
def tieEntryA : IssueEntry :=
  ⟨"a.java".data, "m1".data, "BLOCKER".data, "BUG".data, "r".data,
    "5min".data, none⟩

def tieEntryB : IssueEntry :=
  ⟨"a.java".data, "m2".data, "BLOCKER".data, "BUG".data, "r".data,
    "5min".data, none⟩

/-- The same two issues keyed and listed in the two arrival orders. -/
def tieDict1 : List (Str × IssueEntry) :=
  [("k1".data, tieEntryA), ("k2".data, tieEntryB)]

def tieDict2 : List (Str × IssueEntry) :=
  [("k2".data, tieEntryB), ("k1".data, tieEntryA)]

/-- Two issues with distinct components, in the two arrival orders. -/
def untiedEntryA : IssueEntry :=
  ⟨"a.java".data, "m1".data, "BLOCKER".data, "BUG".data, "r".data,
    "5min".data, none⟩

def untiedEntryB : IssueEntry :=
  ⟨"b.java".data, "m2".data, "BLOCKER".data, "BUG".data, "r".data,
    "5min".data, none⟩

def untiedDict1 : List (Str × IssueEntry) :=
  [("k1".data, untiedEntryA), ("k2".data, untiedEntryB)]

def untiedDict2 : List (Str × IssueEntry) :=
  [("k2".data, untiedEntryB), ("k1".data, untiedEntryA)]

/-- A one-issue dictionary and its formatted result, used as the C1
witness input. -/
def c1Dict : List (Str × IssueEntry) :=
  [("ka".data, ⟨"x.py".data, "mm".data, "MAJOR".data, "CODE_SMELL".data,
    "rr".data, "3min".data, none⟩)]

def c1Res : Str × Amounts :=
  match _format_issue_table ISSUE_SEVERITIES ISSUE_TYPES c1Dict with
  | .ok r => r
  | .error _ => ([], [])

/-- A single empty page lacking `debtTotal`, and a server answering it,
used as the C8 witness input. -/
def c8Page : IssuesPage := ⟨[], 0, 500, 7, none⟩

def c8Server : Nat → Resp IssuesPage := fun _ => ⟨200, [], c8Page⟩

/-- A uniform server reporting total 3 with page size 2 (two pages), used
as the C2 witness input. -/
def c2Page : IssuesPage := ⟨[], 3, 2, 0, none⟩

def c2Server : Nat → Resp IssuesPage := fun _ => ⟨200, [], c2Page⟩

/-- A two-page server repeating the issue key "k" with different messages,
used as the C6 counterexample (total 600 at page size 500 gives two pages). -/
def c6Issue (m : Str) : RawIssue :=
  ⟨"k".data, "c.py".data, m, "MAJOR".data, "LOW".data, "BUG".data,
    "RELIABILITY".data, "r".data, "1min".data, none⟩

def c6Server : Nat → Resp IssuesPage := fun p =>
  ⟨200, [], ⟨[c6Issue (if p = 1 then "a".data else "b".data)], 600, 500, 0,
    none⟩⟩

/-- The processed entries the two pages produce for key "k". -/
def c6EntryA : IssueEntry :=
  ⟨"c.py".data, "a".data, "MAJOR".data, "BUG".data, "r".data, "1min".data,
    none⟩

def c6EntryB : IssueEntry :=
  ⟨"c.py".data, "b".data, "MAJOR".data, "BUG".data, "r".data, "1min".data,
    none⟩

/-- One-issue servers for two projects whose (distinct) component paths
both receive the alias `file_1.java`, used as the C4 counterexample. -/
def c4Issue (c : Str) : RawIssue :=
  ⟨"k".data, c, "m".data, "INFO".data, "INFO".data, "BUG".data,
    "RELIABILITY".data, "r".data, "1min".data, none⟩

def c4Server (c : Str) : Nat → Resp IssuesPage := fun _ =>
  ⟨200, [], ⟨[c4Issue c], 1, 500, 0, none⟩⟩

def c4EntryAnon : IssueEntry :=
  ⟨"file_1.java".data, "m".data, "INFO".data, "BUG".data, "r".data,
    "1min".data, none⟩

/-- The pseudonymization mapping predicted for a list of distinct
components first seen in order, counters starting at `k0`. -/
def specAnonMap (k0 : Nat) : List Str → List (Str × Str)
  | [] => []
  | c :: ds => (c, mkAlias k0 (fileEnding c)) :: specAnonMap (k0 + 1) ds

/-- Measures payloads for the two-project complexity example of C9: the
first project reports complexity 10, the second omits it. -/
def c9Meas1 : MeasuresPayload :=
  ⟨[⟨"complexity".data, "10".data⟩],
   [⟨"complexity".data, "Cyclomatic Complexity".data⟩]⟩

def c9Resp1 : Resp MeasuresPayload := ⟨200, [], c9Meas1⟩

def c9Meas2 : MeasuresPayload :=
  ⟨[⟨"ncloc".data, "5".data⟩], [⟨"ncloc".data, "Lines of Code".data⟩]⟩

def c9Resp2 : Resp MeasuresPayload := ⟨200, [], c9Meas2⟩

/-- Their fetched metric dictionaries, used in the C9 witness. -/
def c9Dict1 : List (Str × Str) :=
  [("Cyclomatic Complexity".data, "10".data)]

def c9Dict2 : List (Str × Str) := [("Lines of Code".data, "5".data)]

/-- The observable abort/success dichotomy of a run outcome (used by C3):
either a clean exit that wrote exactly one report with every performed
request answered 200, or exit code 1 with nothing written — the latter
either an unhandled exception (nothing printed, all requests 200) or the
`_get` abort, which printed exactly the failing request's error body. -/
def goodOut (sv : Server) (out : MainOut) : Prop :=
  (out.exitCode = 0 ∧ (∃ d, out.written = [("report.html".data, d)]) ∧
    (∀ r ∈ out.requests, reqStatus sv r = 200) ∧ out.printed = []) ∨
  (out.exitCode = 1 ∧ out.written = [] ∧
    (((∀ r ∈ out.requests, reqStatus sv r = 200) ∧ out.printed = []) ∨
     (∃ rq ∈ out.requests, reqStatus sv rq ≠ 200 ∧
        out.printed = ["Failed to fetch data: ".data ++ reqText sv rq])))

/-- A server whose very first issue request fails with status 500, and the
run pieces around it, used as the C3 witness input. -/
def c3Server : Server :=
  ⟨fun _ _ => ⟨500, "boom".data, ⟨[], 0, 500, 0, none⟩⟩,
   fun _ => ⟨500, "boom".data, ⟨[], []⟩⟩⟩

def c3Args : Args := ⟨["p1".data], false, false, false, false⟩

def c3Tpl : Templates := ⟨phISSUES, phSEVERITIES, phCONTENTS⟩

def c3Out : MainOut :=
  ⟨1, ["Failed to fetch data: boom".data], [], [Req.issuesReq ("p1".data) 1]⟩

/-! ### Sorting infrastructure -/

theorem insertS_perm {α : Type} (le : α → α → Bool) (a : α) :
    ∀ l : List α, List.Perm (insertS le a l) (a :: l) := by
  intro l
  induction l with
  | nil => simp [insertS]
  | cons b l ih =>
    by_cases h : le b a = true
    · simp only [insertS, h, if_true]
      exact (List.Perm.cons b ih).trans (List.Perm.swap a b l)
    · simp [insertS, h]

theorem pySorted_perm_aux {α : Type} (le : α → α → Bool) :
    ∀ (l acc : List α),
      List.Perm (l.foldl (fun acc a => insertS le a acc) acc) (acc ++ l) := by
  intro l
  induction l with
  | nil => intro acc; simp
  | cons a l ih =>
    intro acc
    have h1 := ih (insertS le a acc)
    have h2 : List.Perm (insertS le a acc ++ l) ((a :: acc) ++ l) :=
      List.Perm.append_right l (insertS_perm le a acc)
    have h3 : List.Perm ((a :: acc) ++ l) (acc ++ a :: l) :=
      List.perm_middle.symm
    simpa using (h1.trans (h2.trans h3))

theorem pySorted_perm {α : Type} (le : α → α → Bool) (l : List α) :
    List.Perm (pySorted le l) l := by
  simpa [pySorted] using pySorted_perm_aux le l []

theorem insertS_pairwise {α : Type} {le : α → α → Bool}
    (htrans : ∀ a b c, le a b = true → le b c = true → le a c = true)
    (htot : ∀ a b, le a b = true ∨ le b a = true) (a : α) :
    ∀ l, List.Pairwise (fun x y => le x y = true) l →
      List.Pairwise (fun x y => le x y = true) (insertS le a l) := by
  intro l
  induction l with
  | nil => intro _; exact List.pairwise_singleton _ _
  | cons b l ih =>
    intro h
    rcases List.pairwise_cons.mp h with ⟨hb, hl⟩
    by_cases hba : le b a = true
    · simp only [insertS, hba, if_true]
      refine List.pairwise_cons.mpr ⟨?_, ih hl⟩
      intro x hx
      rcases List.mem_cons.mp ((insertS_perm le a l).mem_iff.mp hx) with rfl | hxl
      · exact hba
      · exact hb x hxl
    · simp only [insertS, hba, if_false]
      have hab : le a b = true := (htot a b).resolve_right hba
      refine List.pairwise_cons.mpr ⟨?_, h⟩
      intro x hx
      rcases List.mem_cons.mp hx with rfl | hxl
      · exact hab
      · exact htrans a b x hab (hb x hxl)

theorem pySorted_pairwise_aux {α : Type} {le : α → α → Bool}
    (htrans : ∀ a b c, le a b = true → le b c = true → le a c = true)
    (htot : ∀ a b, le a b = true ∨ le b a = true) :
    ∀ (l acc : List α), List.Pairwise (fun x y => le x y = true) acc →
      List.Pairwise (fun x y => le x y = true)
        (l.foldl (fun acc a => insertS le a acc) acc) := by
  intro l
  induction l with
  | nil => intro acc h; simpa using h
  | cons a l ih =>
    intro acc h
    exact ih (insertS le a acc) (insertS_pairwise htrans htot a acc h)

theorem pySorted_pairwise {α : Type} {le : α → α → Bool}
    (htrans : ∀ a b c, le a b = true → le b c = true → le a c = true)
    (htot : ∀ a b, le a b = true ∨ le b a = true) (l : List α) :
    List.Pairwise (fun x y => le x y = true) (pySorted le l) :=
  pySorted_pairwise_aux htrans htot l [] List.Pairwise.nil

theorem sorted_unique {α : Type} {le : α → α → Bool} :
    ∀ (l₁ l₂ : List α), List.Perm l₁ l₂ →
      List.Pairwise (fun x y => le x y = true) l₁ →
      List.Pairwise (fun x y => le x y = true) l₂ →
      (∀ x ∈ l₁, ∀ y ∈ l₁, le x y = true → le y x = true → x = y) →
      l₁ = l₂ := by
  intro l₁
  induction l₁ with
  | nil =>
    intro l₂ hp _ _ _
    rw [hp.symm.eq_nil]
  | cons a t₁ ih =>
    intro l₂ hp h₁ h₂ hanti
    have ha2 : a ∈ l₂ := hp.mem_iff.mp (List.mem_cons_self a t₁)
    cases l₂ with
    | nil => exact absurd ha2 (List.not_mem_nil a)
    | cons b t₂ =>
      rcases List.pairwise_cons.mp h₁ with ⟨h1a, h1t⟩
      rcases List.pairwise_cons.mp h₂ with ⟨h2b, h2t⟩
      have hab : a = b := by
        by_contra hne
        have hat2 : a ∈ t₂ := by
          rcases List.mem_cons.mp ha2 with h | h
          · exact absurd h hne
          · exact h
        have hba : le b a = true := h2b a hat2
        have hb1 : b ∈ a :: t₁ := hp.symm.mem_iff.mp (List.mem_cons_self b t₂)
        have hbt1 : b ∈ t₁ := by
          rcases List.mem_cons.mp hb1 with h | h
          · exact absurd h.symm hne
          · exact h
        have hab2 : le a b = true := h1a b hbt1
        exact hne (hanti a (List.mem_cons_self a t₁) b
          (List.mem_cons_of_mem a hbt1) hab2 hba)
      subst hab
      have hpt : List.Perm t₁ t₂ := hp.cons_inv
      have ht : t₁ = t₂ := ih t₂ hpt h1t h2t
        (fun x hx y hy => hanti x (List.mem_cons_of_mem a hx) y
          (List.mem_cons_of_mem a hy))
      rw [ht]

theorem pySorted_eq_of_perm {α : Type} {le : α → α → Bool}
    (htrans : ∀ a b c, le a b = true → le b c = true → le a c = true)
    (htot : ∀ a b, le a b = true ∨ le b a = true)
    (l₁ l₂ : List α) (hperm : List.Perm l₁ l₂)
    (hanti : ∀ x ∈ l₁, ∀ y ∈ l₁, le x y = true → le y x = true → x = y) :
    pySorted le l₁ = pySorted le l₂ := by
  refine sorted_unique (pySorted le l₁) (pySorted le l₂)
    ((pySorted_perm le l₁).trans (hperm.trans (pySorted_perm le l₂).symm))
    (pySorted_pairwise htrans htot l₁) (pySorted_pairwise htrans htot l₂) ?_
  intro x hx y hy
  exact hanti x ((pySorted_perm le l₁).mem_iff.mp hx)
    y ((pySorted_perm le l₁).mem_iff.mp hy)

/-! ### Lexicographic string order facts -/

theorem strLe_trans : ∀ a b c : Str, strLe a b = true → strLe b c = true →
    strLe a c = true := by
  intro a
  induction a with
  | nil => intro b c _ _; rfl
  | cons x as ih =>
    intro b c hab hbc
    cases b with
    | nil => simp [strLe] at hab
    | cons y bs =>
      cases c with
      | nil => simp [strLe] at hbc
      | cons z cs =>
        simp only [strLe] at hab hbc ⊢
        by_cases hxy : x = y
        · subst hxy
          by_cases hxz : x = z
          · subst hxz
            simp only [if_pos rfl] at hab hbc ⊢
            exact ih bs cs hab hbc
          · by_cases hyz2 : x = z
            · exact absurd hyz2 hxz
            · simp only [if_pos rfl] at hab
              simp only [if_neg hxz] at hbc ⊢
              exact hbc
        · by_cases hyz : y = z
          · subst hyz
            simp only [if_neg hxy] at hab ⊢
            exact hab
          · simp only [if_neg hxy] at hab
            simp only [if_neg hyz] at hbc
            have hxz : x ≠ z := by
              intro h
              subst h
              exact absurd (lt_trans (of_decide_eq_true hab)
                (of_decide_eq_true hbc)) (lt_irrefl x)
            simp only [if_neg hxz]
            exact decide_eq_true (lt_trans (of_decide_eq_true hab)
              (of_decide_eq_true hbc))

theorem strLe_total : ∀ a b : Str, strLe a b = true ∨ strLe b a = true := by
  intro a
  induction a with
  | nil => intro b; left; rfl
  | cons x as ih =>
    intro b
    cases b with
    | nil => right; rfl
    | cons y bs =>
      simp only [strLe]
      by_cases hxy : x = y
      · subst hxy
        simp only [if_pos rfl]
        exact ih bs
      · rcases lt_or_gt_of_ne hxy with h | h
        · left
          simp only [if_neg hxy]
          exact decide_eq_true h
        · right
          simp only [if_neg (Ne.symm hxy)]
          exact decide_eq_true h

theorem strLe_antisymm : ∀ a b : Str, strLe a b = true → strLe b a = true →
    a = b := by
  intro a
  induction a with
  | nil =>
    intro b hab hba
    cases b with
    | nil => rfl
    | cons y bs => simp [strLe] at hba
  | cons x as ih =>
    intro b hab hba
    cases b with
    | nil => simp [strLe] at hab
    | cons y bs =>
      simp only [strLe] at hab hba
      by_cases hxy : x = y
      · subst hxy
        simp only [if_pos rfl] at hab hba
        rw [ih bs hab hba]
      · simp only [if_neg hxy] at hab
        simp only [if_neg (Ne.symm hxy)] at hba
        exact absurd (lt_trans (of_decide_eq_true hab) (of_decide_eq_true hba))
          (lt_irrefl x)

/-! ### Sort-key facts -/

theorem sortKeyLe_iff (sevs : List Str) (a b : Str × IssueEntry) :
    sortKeyLe sevs a b = true ↔
      (idxOf sevs a.2.severity < idxOf sevs b.2.severity ∨
        (idxOf sevs a.2.severity = idxOf sevs b.2.severity ∧
          strLe a.2.component b.2.component = true)) := by
  simp [sortKeyLe, Bool.or_eq_true, Bool.and_eq_true, decide_eq_true_eq]

theorem sortKeyLe_trans (sevs : List Str) :
    ∀ a b c, sortKeyLe sevs a b = true → sortKeyLe sevs b c = true →
      sortKeyLe sevs a c = true := by
  intro a b c hab hbc
  rw [sortKeyLe_iff] at hab hbc ⊢
  rcases hab with h1 | ⟨h1, h1s⟩
  · rcases hbc with h2 | ⟨h2, _⟩
    · exact Or.inl (lt_trans h1 h2)
    · exact Or.inl (h2 ▸ h1)
  · rcases hbc with h2 | ⟨h2, h2s⟩
    · exact Or.inl (h1 ▸ h2)
    · exact Or.inr ⟨h1.trans h2, strLe_trans _ _ _ h1s h2s⟩

theorem sortKeyLe_total (sevs : List Str) :
    ∀ a b, sortKeyLe sevs a b = true ∨ sortKeyLe sevs b a = true := by
  intro a b
  rw [sortKeyLe_iff, sortKeyLe_iff]
  rcases Nat.lt_trichotomy (idxOf sevs a.2.severity)
      (idxOf sevs b.2.severity) with h | h | h
  · exact Or.inl (Or.inl h)
  · rcases strLe_total a.2.component b.2.component with hs | hs
    · exact Or.inl (Or.inr ⟨h, hs⟩)
    · exact Or.inr (Or.inr ⟨h.symm, hs⟩)
  · exact Or.inr (Or.inl h)

/-! ### First-index facts -/

theorem idxOf_get? : ∀ (l : List Str) (s : Str), s ∈ l →
    l.get? (idxOf l s) = some s := by
  intro l
  induction l with
  | nil => intro s h; exact absurd h (List.not_mem_nil s)
  | cons x xs ih =>
    intro s h
    by_cases hx : x = s
    · subst hx
      simp [idxOf, List.findIdx_cons]
    · have hs : s ∈ xs := by
        rcases List.mem_cons.mp h with h2 | h2
        · exact absurd h2.symm hx
        · exact h2
      simp only [idxOf, List.findIdx_cons]
      rw [decide_eq_false hx]
      simp only [cond_false, List.get?_cons_succ]
      exact ih s hs

theorem idxOf_inj (l : List Str) (s₁ s₂ : Str) (h₁ : s₁ ∈ l) (h₂ : s₂ ∈ l)
    (h : idxOf l s₁ = idxOf l s₂) : s₁ = s₂ := by
  have e1 := idxOf_get? l s₁ h₁
  have e2 := idxOf_get? l s₂ h₂
  rw [h, e2] at e1
  exact (Option.some_injective _ e1).symm

/-! ### Claim C5 -/

/-- C5, counterexample: the two dictionaries hold the same issues (they are
permutations of each other), yet `_format_issue_table` renders different
row sequences, because the two issues tie on (severity, component) and the
stable sort keeps their arrival order.  This refutes the claim that
reordering the input never changes the sorted output. -/
theorem c5_counterexample :
    List.Perm tieDict1 tieDict2 ∧
      _format_issue_table ISSUE_SEVERITIES ISSUE_TYPES tieDict1 ≠
        _format_issue_table ISSUE_SEVERITIES ISSUE_TYPES tieDict2 := by
  constructor
  · exact List.Perm.swap ("k2".data, tieEntryB) ("k1".data, tieEntryA) []
  · decide

/-- C5, amended: the issue-table rows are sorted primarily by severity rank
(most severe first, i.e. ascending index in the selected taxonomy's fixed
order) and secondarily by component, ties keeping arrival order; and for
two input mappings containing the same issues in different arrival orders
the output is identical PROVIDED no two distinct issues share both severity
and component (Python's stable sort breaks such ties by arrival order). -/
theorem c5_amended_thm (sevs types : List Str) (d₁ d₂ : List (Str × IssueEntry))
    (hperm : List.Perm d₁ d₂)
    (hkey : ∀ p ∈ d₁, ∀ q ∈ d₁, p.2.severity = q.2.severity →
      p.2.component = q.2.component → p = q)
    (hsev : ∀ p ∈ d₁, p.2.severity ∈ sevs) :
    List.Pairwise (fun a b => sortKeyLe sevs a b = true)
      (pySorted (sortKeyLe sevs) d₁) ∧
    _format_issue_table sevs types d₁ = _format_issue_table sevs types d₂ := by
  refine ⟨pySorted_pairwise (sortKeyLe_trans sevs) (sortKeyLe_total sevs) d₁, ?_⟩
  have hanti : ∀ x ∈ d₁, ∀ y ∈ d₁, sortKeyLe sevs x y = true →
      sortKeyLe sevs y x = true → x = y := by
    intro x hx y hy hxy hyx
    rw [sortKeyLe_iff] at hxy hyx
    have hidx : idxOf sevs x.2.severity = idxOf sevs y.2.severity := by
      rcases hxy with h1 | ⟨h1, _⟩
      · rcases hyx with h2 | ⟨h2, _⟩
        · exact absurd (lt_trans h1 h2) (lt_irrefl _)
        · exact absurd (h2 ▸ h1) (lt_irrefl _)
      · exact h1
    have hcomp : x.2.component = y.2.component := by
      rcases hxy with h1 | ⟨_, h1s⟩
      · exact absurd (hidx ▸ h1) (lt_irrefl _)
      · rcases hyx with h2 | ⟨_, h2s⟩
        · exact absurd (hidx ▸ h2) (lt_irrefl _)
        · exact strLe_antisymm _ _ h1s h2s
    have hsevx := hsev x hx
    have hsevy := hsev y hy
    exact hkey x hx y hy (idxOf_inj sevs _ _ hsevx hsevy hidx) hcomp
  have hsorteq : pySorted (sortKeyLe sevs) d₁ = pySorted (sortKeyLe sevs) d₂ :=
    pySorted_eq_of_perm (sortKeyLe_trans sevs) (sortKeyLe_total sevs)
      d₁ d₂ hperm hanti
  have hall1 : d₁.all (fun it => sevs.contains it.2.severity) = true := by
    rw [List.all_eq_true]
    intro it hit
    exact List.elem_eq_true_of_mem (hsev it hit)
  have hall2 : d₂.all (fun it => sevs.contains it.2.severity) = true := by
    rw [List.all_eq_true]
    intro it hit
    exact List.elem_eq_true_of_mem (hsev it (hperm.symm.mem_iff.mp hit))
  simp only [_format_issue_table, hall1, hall2, if_true, hsorteq]

/-- C5, witness: with distinct components there is no tie, and the two
arrival orders of the same two issues render identically. -/
theorem c5_witness :
    _format_issue_table ISSUE_SEVERITIES ISSUE_TYPES untiedDict1 =
      _format_issue_table ISSUE_SEVERITIES ISSUE_TYPES untiedDict2 :=
  (c5_amended_thm ISSUE_SEVERITIES ISSUE_TYPES untiedDict1 untiedDict2
    (List.Perm.swap ("k2".data, untiedEntryB) ("k1".data, untiedEntryA) [])
    (by decide) (by decide)).2

/-! ### Matrix counting facts (towards C1) -/

theorem modify_incr_sum : ∀ (l : List Nat) (i : Nat), i < l.length →
    (l.modify (· + 1) i).sum = l.sum + 1 := by
  intro l
  induction l with
  | nil => intro i h; simp at h
  | cons a l ih =>
    intro i h
    cases i with
    | zero => simp [List.modify_zero_cons]; omega
    | succ i =>
      have hi : i < l.length := by simpa using h
      simp only [List.modify_succ_cons, List.sum_cons, ih i hi]
      omega

theorem modify_same_length : ∀ (l : List Nat) (i : Nat),
    (l.modify (· + 1) i).length = l.length := by
  intro l
  induction l with
  | nil => intro i; simp
  | cons a l ih =>
    intro i
    cases i with
    | zero => simp [List.modify_zero_cons]
    | succ i => simp [List.modify_succ_cons, ih i]

theorem bump_spec : ∀ (am : Amounts) (sev : Str) (ti : Nat) (r : Amounts),
    bump am sev ti = some r →
    cellSum r = cellSum am + 1 ∧
    r.map (fun p => p.1) = am.map (fun p => p.1) ∧
    ∀ T, (∀ p ∈ am, p.2.length = T) → (∀ p ∈ r, p.2.length = T) := by
  intro am
  induction am with
  | nil => intro sev ti r h; simp [bump] at h
  | cons p rest ih =>
    intro sev ti r h
    simp only [bump] at h
    by_cases hp : p.1 = sev
    · rw [if_pos hp] at h
      by_cases hti : ti < p.2.length
      · rw [if_pos hti] at h
        cases h
        refine ⟨?_, by simp, ?_⟩
        · simp only [cellSum, List.map_cons, List.sum_cons,
            modify_incr_sum p.2 ti hti]
          omega
        · intro T hT q hq
          rcases List.mem_cons.mp hq with rfl | hq2
          · simp only [modify_same_length]
            exact hT p (List.mem_cons_self p rest)
          · exact hT q (List.mem_cons_of_mem p hq2)
      · rw [if_neg hti] at h
        cases h
    · rw [if_neg hp] at h
      cases hb : bump rest sev ti with
      | none => rw [hb] at h; cases h
      | some r2 =>
        rw [hb] at h
        cases h
        obtain ⟨h1, h2, h3⟩ := ih sev ti r2 hb
        refine ⟨?_, by simp [h2], ?_⟩
        · simp only [cellSum, List.map_cons, List.sum_cons] at h1 ⊢
          omega
        · intro T hT q hq
          rcases List.mem_cons.mp hq with rfl | hq2
          · exact hT q (List.mem_cons_self q rest)
          · exact h3 T (fun z hz => hT z (List.mem_cons_of_mem p hz)) q hq2

theorem sum_map_zero (l : List Str) : (l.map (fun _ => (0 : Nat))).sum = 0 := by
  induction l with
  | nil => rfl
  | cons a l ih => simp [ih]

theorem initAmounts_keys (sevs types : List Str) :
    (initAmounts sevs types).map (fun p => p.1) = sevs := by
  simp [initAmounts, List.map_map, Function.comp_def]

theorem initAmounts_rows (sevs types : List Str) :
    ∀ p ∈ initAmounts sevs types, p.2.length = types.length := by
  intro p hp
  simp only [initAmounts, List.mem_map] at hp
  obtain ⟨s, _, rfl⟩ := hp
  simp

theorem initAmounts_cellSum (sevs types : List Str) :
    cellSum (initAmounts sevs types) = 0 := by
  simp only [cellSum, initAmounts, List.map_map, Function.comp_def]
  have h : (fun (s : Str) => ((types.map (fun _ => (0 : Nat))).sum)) =
      (fun _ => (0 : Nat)) := funext (fun _ => sum_map_zero types)
  rw [h]
  exact sum_map_zero sevs

theorem tblFold_spec (types : List Str) :
    ∀ (l : List (Str × IssueEntry)) (acc : Str × Amounts) (r : Str × Amounts),
    l.foldlM (tblStep types) acc = .ok r →
    cellSum r.2 = cellSum acc.2 + l.length ∧
    r.2.map (fun p => p.1) = acc.2.map (fun p => p.1) ∧
    ∀ T, (∀ p ∈ acc.2, p.2.length = T) → (∀ p ∈ r.2, p.2.length = T) := by
  intro l
  induction l with
  | nil =>
    intro acc r h
    simp only [List.foldlM_nil] at h
    cases h
    exact ⟨by simp, rfl, fun T hT => hT⟩
  | cons a l ih =>
    intro acc r h
    rw [List.foldlM_cons] at h
    cases hstep : tblStep types acc a with
    | error e => rw [hstep] at h; simp [Bind.bind, Except.bind] at h
    | ok acc1 =>
      rw [hstep] at h
      have h2 : l.foldlM (tblStep types) acc1 = .ok r := by
        simpa [Bind.bind, Except.bind] using h
      simp only [tblStep] at hstep
      split at hstep
      · simp at hstep
      · rename_i ti hfi
        split at hstep
        · rename_i am1 hbump
          cases hstep
          obtain ⟨b1, b2, b3⟩ := bump_spec acc.2 a.2.severity ti am1 hbump
          obtain ⟨i1, i2, i3⟩ := ih (acc.1 ++ issueRow a.2, am1) r h2
          refine ⟨?_, by rw [i2]; exact b2, ?_⟩
          · simp only [List.length_cons]
            simp only at i1
            omega
          · intro T hT
            exact i3 T (b3 T hT)
        · rename_i hbump
          simp at hstep

/-- Per-project cell-count: a successful `_format_issue_table` yields a
matrix whose cells sum to the number of issues, with one row per severity
and one column per type. -/
theorem format_table_count (sevs types : List Str)
    (issues : List (Str × IssueEntry)) (tbl : Str) (am : Amounts)
    (h : _format_issue_table sevs types issues = .ok (tbl, am)) :
    cellSum am = issues.length ∧ am.map (fun p => p.1) = sevs ∧
    ∀ p ∈ am, p.2.length = types.length := by
  unfold _format_issue_table at h
  by_cases hall : issues.all (fun it => sevs.contains it.2.severity) = true
  · rw [if_pos hall] at h
    dsimp only at h
    split at h
    · simp at h
    · rename_i r hfold
      cases h
      obtain ⟨f1, f2, f3⟩ := tblFold_spec types _ _ _ hfold
      have hlen : (pySorted (sortKeyLe sevs) issues).length = issues.length :=
        (pySorted_perm (sortKeyLe sevs) issues).length_eq
      refine ⟨?_, ?_, ?_⟩
      · rw [f1, initAmounts_cellSum, hlen]; omega
      · rw [f2, initAmounts_keys]
      · exact f3 types.length (initAmounts_rows sevs types)
  · rw [if_neg hall] at h
    cases h

/-! ### Roll-up facts (towards C1) -/

theorem getD_of_get? : ∀ (l : List Nat) (x v : Nat), l.get? x = some v →
    l.getD x 0 = v := by
  intro l
  induction l with
  | nil => intro x v h; simp at h
  | cons a l ih =>
    intro x v h
    cases x with
    | zero => simp at h; simp [List.getD, h]
    | succ x =>
      simp only [List.get?_cons_succ] at h
      simpa [List.getD] using ih x v h

theorem get?_some_of_lt : ∀ (l : List Nat) (x : Nat), x < l.length →
    ∃ v, l.get? x = some v := by
  intro l
  induction l with
  | nil => intro x h; simp at h
  | cons a l ih =>
    intro x h
    cases x with
    | zero => exact ⟨a, rfl⟩
    | succ x => exact ih x (by simpa using h)

theorem set_add_sum : ∀ (l : List Nat) (x v av : Nat), l.get? x = some v →
    (l.set x (v + av)).sum = l.sum + av ∧ (l.set x (v + av)).length = l.length := by
  intro l
  induction l with
  | nil => intro x v av h; simp at h
  | cons a l ih =>
    intro x v av h
    cases x with
    | zero =>
      simp only [List.get?_cons_zero, Option.some_inj] at h
      subst h
      simp [List.set]
      omega
    | succ x =>
      simp only [List.get?_cons_succ] at h
      obtain ⟨h1, h2⟩ := ih x v av h
      simp only [List.set, List.sum_cons, List.length_cons, h1, h2]
      exact ⟨by omega, trivial⟩

theorem dictLookup_cons_ne {α : Type} (p : Str × α) (d : List (Str × α))
    (k : Str) (h : p.1 ≠ k) : dictLookup (p :: d) k = dictLookup d k := by
  simp only [dictLookup, List.find?_cons]
  rw [decide_eq_false h]

theorem dictLookup_cons_eq {α : Type} (p : Str × α) (d : List (Str × α))
    (k : Str) (h : p.1 = k) : dictLookup (p :: d) k = some p.2 := by
  simp only [dictLookup, List.find?_cons]
  rw [decide_eq_true h]
  rfl

theorem dictLookup_key {α : Type} :
    ∀ (d : List (Str × α)) (k : Str), k ∈ d.map (fun p => p.1) →
    ∃ v, dictLookup d k = some v ∧ (k, v) ∈ d := by
  intro d
  induction d with
  | nil => intro k h; simp at h
  | cons p rest ih =>
    intro k h
    by_cases hp : p.1 = k
    · refine ⟨p.2, dictLookup_cons_eq p rest k hp, ?_⟩
      have hpe : p = (k, p.2) := by
        rw [← hp]
      rw [← hpe]
      exact List.mem_cons_self p rest
    · have hk : k ∈ rest.map (fun p => p.1) := by
        simp only [List.map_cons, List.mem_cons] at h
        rcases h with h | h
        · exact absurd h.symm hp
        · exact h
      obtain ⟨v, hv, hm⟩ := ih k hk
      exact ⟨v, by rw [dictLookup_cons_ne p rest k hp]; exact hv,
        List.mem_cons_of_mem p hm⟩

theorem dictModify_add_spec :
    ∀ (d : Amounts) (k : Str) (x av T : Nat),
    k ∈ d.map (fun p => p.1) → (∀ p ∈ d, p.2.length = T) → x < T →
    ∃ r, dictModify? d k
        (fun row => (row.get? x).map (fun tv => row.set x (tv + av))) = some r ∧
      r.map (fun p => p.1) = d.map (fun p => p.1) ∧
      (∀ p ∈ r, p.2.length = T) ∧ cellSum r = cellSum d + av := by
  intro d
  induction d with
  | nil => intro k x av T h _ _; simp at h
  | cons p rest ih =>
    intro k x av T hk hT hx
    by_cases hp : p.1 = k
    · have hlen : p.2.length = T := hT p (List.mem_cons_self p rest)
      obtain ⟨v, hv⟩ := get?_some_of_lt p.2 x (by omega)
      obtain ⟨hs, hl⟩ := set_add_sum p.2 x v av hv
      refine ⟨(k, p.2.set x (v + av)) :: rest, ?_, ?_, ?_, ?_⟩
      · simp only [dictModify?, if_pos hp]
        rw [hv]
        rfl
      · simp [hp]
      · intro q hq
        rcases List.mem_cons.mp hq with rfl | hq2
        · simpa [hl] using hlen
        · exact hT q (List.mem_cons_of_mem p hq2)
      · simp only [cellSum, List.map_cons, List.sum_cons, hs]
        omega
    · have hk2 : k ∈ rest.map (fun p => p.1) := by
        simp only [List.map_cons, List.mem_cons] at hk
        rcases hk with h | h
        · exact absurd h.symm hp
        · exact h
      obtain ⟨r, hr, hkeys, hlens, hsum⟩ :=
        ih k x av T hk2 (fun q hq => hT q (List.mem_cons_of_mem p hq)) hx
      refine ⟨p :: r, ?_, ?_, ?_, ?_⟩
      · simp only [dictModify?, if_neg hp]
        rw [hr]
        rfl
      · simp [hkeys]
      · intro q hq
        rcases List.mem_cons.mp hq with rfl | hq2
        · exact hT q (List.mem_cons_self q rest)
        · exact hlens q hq2
      · simp only [cellSum, List.map_cons, List.sum_cons] at hsum ⊢
        omega

theorem rollStep_spec (am t2 : Amounts) (sev : Str) (x T : Nat) (arow : List Nat)
    (ham : dictLookup am sev = some arow) (hal : arow.length = T)
    (hkey : sev ∈ t2.map (fun p => p.1)) (hT : ∀ p ∈ t2, p.2.length = T)
    (hx : x < T) :
    ∃ r, rollStep am sev t2 x = some r ∧
      r.map (fun p => p.1) = t2.map (fun p => p.1) ∧
      (∀ p ∈ r, p.2.length = T) ∧
      cellSum r = cellSum t2 + arow.getD x 0 := by
  obtain ⟨v, hv⟩ := get?_some_of_lt arow x (by omega)
  obtain ⟨r, hr, hkeys, hlens, hsum⟩ :=
    dictModify_add_spec t2 sev x v T hkey hT hx
  refine ⟨r, ?_, hkeys, hlens, ?_⟩
  · simp only [rollStep, ham, Option.bind_eq_bind, Option.some_bind, hv]
    exact hr
  · rw [hsum, getD_of_get? arow x v hv]

theorem rollStep_cons_frame (am : Amounts) (sev : Str) (p : Str × List Nat)
    (t2 : Amounts) (x : Nat) (h : p.1 ≠ sev) :
    rollStep am sev (p :: t2) x = (rollStep am sev t2 x).map (fun r => p :: r) := by
  simp only [rollStep, Option.bind_eq_bind]
  cases dictLookup am sev with
  | none => simp
  | some arow =>
    simp only [Option.some_bind]
    cases arow.get? x with
    | none => simp
    | some v =>
      simp only [Option.some_bind]
      simp only [dictModify?, if_neg h]

theorem rollStep_am_skip (am : Amounts) (sev : Str) (q : Str × List Nat)
    (h : q.1 ≠ sev) :
    rollStep (q :: am) sev = rollStep am sev := by
  funext t2 x
  simp only [rollStep, dictLookup_cons_ne q am sev h]

theorem rangeFold_cons_frame (am : Amounts) (sev : Str) :
    ∀ (xs : List Nat) (p : Str × List Nat) (t2 : Amounts), p.1 ≠ sev →
    xs.foldlM (rollStep am sev) (p :: t2) =
      (xs.foldlM (rollStep am sev) t2).map (fun r => p :: r) := by
  intro xs
  induction xs with
  | nil => intro p t2 _; rfl
  | cons x xs ih =>
    intro p t2 hp
    simp only [List.foldlM_cons, rollStep_cons_frame am sev p t2 x hp]
    cases rollStep am sev t2 x with
    | none => rfl
    | some r =>
      simp only [Option.map_some, Option.bind_eq_bind, Option.some_bind]
      exact ih p r hp

theorem sevRoll_cons_frame (types : List Str) (am : Amounts) (sev : Str)
    (p : Str × List Nat) (t2 : Amounts) (hp : p.1 ≠ sev) :
    sevRoll types am (p :: t2) sev =
      (sevRoll types am t2 sev).map (fun r => p :: r) := by
  simp only [sevRoll]
  exact rangeFold_cons_frame am sev (List.range types.length) p t2 hp

theorem sevRollFold_cons_frame (types : List Str) :
    ∀ (iter : List Str) (am : Amounts) (q p : Str × List Nat) (total : Amounts),
    q.1 = p.1 → p.1 ∉ iter →
    iter.foldlM (sevRoll types (q :: am)) (p :: total) =
      (iter.foldlM (sevRoll types am) total).map (fun r => p :: r) := by
  intro iter
  induction iter with
  | nil => intro am q p total _ _; rfl
  | cons sev rest ih =>
    intro am q p total hq hni
    have hps : p.1 ≠ sev := by
      intro h
      exact hni (h ▸ List.mem_cons_self sev rest)
    have hqs : q.1 ≠ sev := by rw [hq]; exact hps
    simp only [List.foldlM_cons]
    have h1 : sevRoll types (q :: am) (p :: total) sev =
        (sevRoll types am total sev).map (fun r => p :: r) := by
      simp only [sevRoll, rollStep_am_skip am sev q hqs]
      exact rangeFold_cons_frame am sev (List.range types.length) p total hps
    rw [h1]
    cases hres : sevRoll types am total sev with
    | none => rfl
    | some t2 =>
      simp only [Option.map_some, Option.bind_eq_bind, Option.some_bind]
      exact ih am q p t2 hq (fun h => hni (List.mem_cons_of_mem sev h))

theorem rangeFold_spec (am : Amounts) (sev : Str) (T : Nat) (arow : List Nat)
    (ham : dictLookup am sev = some arow) (hal : arow.length = T) :
    ∀ (xs : List Nat) (t2 : Amounts), (∀ x ∈ xs, x < T) →
    sev ∈ t2.map (fun p => p.1) → (∀ p ∈ t2, p.2.length = T) →
    ∃ r, xs.foldlM (rollStep am sev) t2 = some r ∧
      r.map (fun p => p.1) = t2.map (fun p => p.1) ∧
      (∀ p ∈ r, p.2.length = T) ∧
      cellSum r = cellSum t2 + (xs.map (fun x => arow.getD x 0)).sum := by
  intro xs
  induction xs with
  | nil =>
    intro t2 _ _ hT
    exact ⟨t2, rfl, rfl, hT, by simp⟩
  | cons x xs ih =>
    intro t2 hxs hkey hT
    obtain ⟨r1, hr1, hk1, hl1, hs1⟩ := rollStep_spec am t2 sev x T arow ham hal
      hkey hT (hxs x (List.mem_cons_self x xs))
    obtain ⟨r2, hr2, hk2, hl2, hs2⟩ := ih r1
      (fun y hy => hxs y (List.mem_cons_of_mem x hy)) (hk1 ▸ hkey) hl1
    refine ⟨r2, ?_, by rw [hk2, hk1], hl2, ?_⟩
    · simp only [List.foldlM_cons, hr1, Option.bind_eq_bind, Option.some_bind]
      exact hr2
    · rw [hs2, hs1]
      simp only [List.map_cons, List.sum_cons]
      omega

theorem sum_getD_range : ∀ (l : List Nat),
    ((List.range l.length).map (fun i => l.getD i 0)).sum = l.sum := by
  intro l
  induction l with
  | nil => rfl
  | cons a l ih =>
    rw [List.length_cons, List.range_succ_eq_map]
    simp only [List.map_cons, List.map_map, List.sum_cons]
    have h2 : (List.map ((fun i => (a :: l).getD i 0) ∘ Nat.succ)
        (List.range l.length)).sum = (List.map (fun i => l.getD i 0)
        (List.range l.length)).sum := by
      apply congrArg
      apply List.map_congr_left
      intro i _
      rfl
    rw [h2, ih]
    simp [List.getD]

theorem rollupAligned (types : List Str) (T : Nat) (hT : T = types.length) :
    ∀ (iter : List Str) (total am : Amounts), iter.Nodup →
    total.map (fun p => p.1) = iter → am.map (fun p => p.1) = iter →
    (∀ p ∈ total, p.2.length = T) → (∀ p ∈ am, p.2.length = T) →
    ∃ r, iter.foldlM (sevRoll types am) total = some r ∧
      r.map (fun p => p.1) = iter ∧ (∀ p ∈ r, p.2.length = T) ∧
      cellSum r = cellSum total + cellSum am := by
  intro iter
  induction iter with
  | nil =>
    intro total am _ htk hak _ _
    have h1 : total = [] := List.map_eq_nil_iff.mp htk
    have h2 : am = [] := List.map_eq_nil_iff.mp hak
    subst h1; subst h2
    exact ⟨[], rfl, rfl, by simp, by simp [cellSum]⟩
  | cons s rest ih =>
    intro total am hnd htk hak htl hal
    cases total with
    | nil => simp at htk
    | cons p total2 =>
      cases am with
      | nil => simp at hak
      | cons q am2 =>
        simp only [List.map_cons, List.cons.injEq] at htk hak
        obtain ⟨hp1, htk2⟩ := htk
        obtain ⟨hq1, hak2⟩ := hak
        have hnds : s ∉ rest := (List.nodup_cons.mp hnd).1
        have hndr : rest.Nodup := (List.nodup_cons.mp hnd).2
        -- the first severity hits the head rows of both matrices
        have harow : dictLookup (q :: am2) s = some q.2 :=
          dictLookup_cons_eq q am2 s hq1
        have halq : q.2.length = T := hal q (List.mem_cons_self q am2)
        obtain ⟨t2, ht2, hk2, hl2, hs2⟩ := rangeFold_spec (q :: am2) s T q.2
          harow halq (List.range types.length)
          (p :: total2) (fun x hx => by rw [hT]; exact List.mem_range.mp hx)
          (by simp [hp1]) htl
        -- decompose the updated total, whose head still carries key s
        cases t2 with
        | nil => simp [hp1] at hk2
        | cons p2 t2r =>
          simp only [List.map_cons, List.cons.injEq, hp1] at hk2
          obtain ⟨hp21, hk2r⟩ := hk2
          -- the remaining severities ignore both heads
          have hfr := sevRollFold_cons_frame types rest am2 q p2 t2r
            (by rw [hq1, hp21]) (by rw [hp21]; exact hnds)
          obtain ⟨r2, hr2, hkr2, hlr2, hsr2⟩ := ih t2r am2 hndr
            (hk2r.trans htk2) hak2
            (fun z hz => hl2 z (List.mem_cons_of_mem p2 hz))
            (fun z hz => hal z (List.mem_cons_of_mem q hz))
          refine ⟨p2 :: r2, ?_, by simp [hp21, hkr2], ?_, ?_⟩
          · simp only [List.foldlM_cons, sevRoll, ht2]
            show (some (p2 :: t2r)).bind
              (fun t => rest.foldlM (sevRoll types (q :: am2)) t) = _
            simp only [Option.some_bind]
            rw [hfr, hr2]
            rfl
          · intro z hz
            rcases List.mem_cons.mp hz with rfl | hz2
            · exact hl2 z (List.mem_cons_self z t2r)
            · exact hlr2 z hz2
          · have hq2sum : (List.map (fun x => q.2.getD x 0)
                (List.range types.length)).sum = q.2.sum := by
              rw [← hT, ← halq]
              exact sum_getD_range q.2
            simp only [cellSum, List.map_cons, List.sum_cons] at hs2 hsr2 ⊢
            rw [hq2sum] at hs2
            omega

theorem rollup_amounts_spec (sevs types : List Str) (total am : Amounts)
    (hnd : sevs.Nodup)
    (h1 : total.map (fun p => p.1) = sevs) (h2 : am.map (fun p => p.1) = sevs)
    (h3 : ∀ p ∈ total, p.2.length = types.length)
    (h4 : ∀ p ∈ am, p.2.length = types.length) :
    ∃ r, rollup_amounts sevs types total am = some r ∧
      r.map (fun p => p.1) = sevs ∧ (∀ p ∈ r, p.2.length = types.length) ∧
      cellSum r = cellSum total + cellSum am :=
  rollupAligned types types.length rfl sevs total am hnd h1 h2 h3 h4

theorem rollFold_spec (sevs types : List Str) (hnd : sevs.Nodup) :
    ∀ (ams : List Amounts) (t : Amounts),
    t.map (fun p => p.1) = sevs → (∀ p ∈ t, p.2.length = types.length) →
    (∀ a ∈ ams, a.map (fun p => p.1) = sevs ∧
      ∀ p ∈ a, p.2.length = types.length) →
    ∃ r, ams.foldlM (rollup_amounts sevs types) t = some r ∧
      cellSum r = cellSum t + (ams.map cellSum).sum := by
  intro ams
  induction ams with
  | nil => intro t _ _ _; exact ⟨t, rfl, by simp⟩
  | cons a ams ih =>
    intro t ht1 ht2 hall
    obtain ⟨ha1, ha2⟩ := hall a (List.mem_cons_self a ams)
    obtain ⟨r1, hr1, hk1, hl1, hs1⟩ :=
      rollup_amounts_spec sevs types t a hnd ht1 ha1 ht2 ha2
    obtain ⟨r2, hr2, hs2⟩ := ih r1 hk1 hl1
      (fun z hz => hall z (List.mem_cons_of_mem a hz))
    refine ⟨r2, ?_, ?_⟩
    · simp only [List.foldlM_cons, hr1, Option.bind_eq_bind, Option.some_bind]
      exact hr2
    · rw [hs2, hs1]
      simp only [List.map_cons, List.sum_cons]
      omega

/-! ### Claim C1 -/

/-- C1: for every project the severity-by-type matrix built by
`_format_issue_table` has cell sum equal to the number of issues counted
(each issue increments exactly one cell), and the grand-total matrix — the
element-wise sum of the per-project matrices computed by the roll-up loop —
has cell sum equal to the total issue count across all projects. -/
theorem c1_matrix_cell_sum (sevs types : List Str) (hnd : sevs.Nodup)
    (dicts : List (List (Str × IssueEntry))) (results : List (Str × Amounts))
    (h : List.Forall₂ (fun d r =>
      _format_issue_table sevs types d = Except.ok r) dicts results) :
    List.Forall₂ (fun d r => cellSum r.2 = d.length) dicts results ∧
    ∃ total, (results.map (fun r => r.2)).foldlM (rollup_amounts sevs types)
        (initAmounts sevs types) = some total ∧
      cellSum total = (dicts.map List.length).sum := by
  have hcount : List.Forall₂ (fun d r => cellSum r.2 = d.length) dicts results := by
    apply h.imp
    intro d r hdr
    exact (format_table_count sevs types d r.1 r.2 (by simpa using hdr)).1
  refine ⟨hcount, ?_⟩
  have hall : ∀ a ∈ results.map (fun r => r.2),
      a.map (fun p => p.1) = sevs ∧ ∀ p ∈ a, p.2.length = types.length := by
    intro a ha
    rw [List.mem_map] at ha
    obtain ⟨r, hr, rfl⟩ := ha
    obtain ⟨d, hd, hdr⟩ : ∃ d ∈ dicts, _format_issue_table sevs types d =
        Except.ok r := by
      clear hcount
      revert hr
      induction h with
      | nil => intro hr; simp at hr
      | cons hrel hrest ihh =>
        intro hr
        rcases List.mem_cons.mp hr with rfl | hr2
        · exact ⟨_, List.mem_cons_self _ _, hrel⟩
        · obtain ⟨d, hd, hdr⟩ := ihh hr2
          exact ⟨d, List.mem_cons_of_mem _ hd, hdr⟩
    obtain ⟨_, k2, k3⟩ := format_table_count sevs types d r.1 r.2
      (by simpa using hdr)
    exact ⟨k2, k3⟩
  obtain ⟨total, htot, hsum⟩ := rollFold_spec sevs types hnd
    (results.map (fun r => r.2)) (initAmounts sevs types)
    (initAmounts_keys sevs types) (initAmounts_rows sevs types) hall
  refine ⟨total, htot, ?_⟩
  rw [hsum, initAmounts_cellSum]
  have hmap : ((results.map (fun r => r.2)).map cellSum).sum =
      (dicts.map List.length).sum := by
    clear hall htot hsum h
    induction hcount with
    | nil => rfl
    | cons hrel hrest ihh =>
      simp only [List.map_cons, List.sum_cons, ihh, hrel]
  omega

/-- C1, witness: a single one-issue project; the matrix cells sum to one per
project and to one in the grand total. -/
theorem c1_witness :
    List.Forall₂ (fun d r => cellSum r.2 = d.length) [c1Dict] [c1Res] ∧
    ∃ total, ([c1Res].map (fun r => r.2)).foldlM
        (rollup_amounts ISSUE_SEVERITIES ISSUE_TYPES)
        (initAmounts ISSUE_SEVERITIES ISSUE_TYPES) = some total ∧
      cellSum total = ([c1Dict].map List.length).sum :=
  c1_matrix_cell_sum ISSUE_SEVERITIES ISSUE_TYPES (by decide) [c1Dict] [c1Res]
    (List.Forall₂.cons (by decide) List.Forall₂.nil)

/-! ### Claim C7 -/

/-- C7: for a grade-metric raw value that parses as a decimal `n / 10 ^ k`
between 1.0 and 5.0, `_convert_to_grade` truncates (does not round) the
value to an integer `t` with `1 <= t <= 5` and returns the letter of the
mapping 1 to A, 2 to B, 3 to C, 4 to D, 5 to E. -/
theorem c7_grade_conversion (v : Str) (n : Int) (k : Nat)
    (hp : pyFloat? v = some (n, k))
    (h1 : (10 : Int) ^ k ≤ n) (h5 : n ≤ 5 * 10 ^ k) :
    1 ≤ decTrunc (n, k) ∧ decTrunc (n, k) ≤ 5 ∧
    _convert_to_grade v = some [gradeLetter (decTrunc (n, k))] := by
  have h0 : (0 : Int) ≤ n := le_trans (by positivity) h1
  have htr : decTrunc (n, k) = Int.ofNat (n.toNat / 10 ^ k) := by
    simp [decTrunc, h0]
  have hn : n = (n.toNat : Int) := (Int.toNat_of_nonneg h0).symm
  have h1N : 10 ^ k ≤ n.toNat := by
    rw [hn] at h1
    exact_mod_cast h1
  have h5N : n.toNat ≤ 5 * 10 ^ k := by
    rw [hn] at h5
    exact_mod_cast h5
  have hP : 0 < 10 ^ k := Nat.pos_pow_of_pos k (by omega)
  have ht1 : 1 ≤ n.toNat / 10 ^ k := (Nat.one_le_div_iff hP).mpr h1N
  have ht5 : n.toNat / 10 ^ k ≤ 5 := by
    have hd : n.toNat / 10 ^ k ≤ 5 * 10 ^ k / 10 ^ k :=
      Nat.div_le_div_right h5N
    have he : 5 * 10 ^ k / 10 ^ k = 5 := Nat.mul_div_cancel 5 hP
    omega
  have hb1 : 1 ≤ decTrunc (n, k) := by
    rw [htr]
    exact Int.ofNat_le.mpr ht1
  have hb5 : decTrunc (n, k) ≤ 5 := by
    rw [htr]
    exact Int.ofNat_le.mpr ht5
  refine ⟨hb1, hb5, ?_⟩
  have hmap : _convert_to_grade v =
      some [Char.ofNat (Int.toNat (65 + decTrunc (n, k) - 1))] := by
    simp only [_convert_to_grade, hp]
    rfl
  rw [hmap]
  have hcase : decTrunc (n, k) = 1 ∨ decTrunc (n, k) = 2 ∨
      decTrunc (n, k) = 3 ∨ decTrunc (n, k) = 4 ∨ decTrunc (n, k) = 5 := by
    omega
  rcases hcase with h | h | h | h | h <;> rw [h] <;> decide

/-- C7, witness: the three reference conversions of the specification,
including the truncating "2.9" case. -/
theorem c7_witness :
    _convert_to_grade ("1.0".data) = some ['A'] ∧
    _convert_to_grade ("2.9".data) = some ['B'] ∧
    _convert_to_grade ("5.0".data) = some ['E'] := by
  refine ⟨?_, ?_, ?_⟩
  · exact ((c7_grade_conversion ("1.0".data) 10 1 (by decide) (by decide)
      (by decide)).2.2).trans (by decide)
  · exact ((c7_grade_conversion ("2.9".data) 29 1 (by decide) (by decide)
      (by decide)).2.2).trans (by decide)
  · exact ((c7_grade_conversion ("5.0".data) 50 1 (by decide) (by decide)
      (by decide)).2.2).trans (by decide)

/-! ### Pagination loop facts (towards C2 and C8) -/

theorem fetchLoop_steady (sv : Nat → Resp IssuesPage) (a b c : Bool)
    (t s : Nat) (hs : 0 < s) (hstat : ∀ p, (sv p).status = 200)
    (ht : ∀ p, (sv p).payload.total = t) (hps : ∀ p, (sv p).payload.ps = s) :
    ∀ (fuel p : Nat) (st : FetchState) (d : IssuesPage) (reqs : List Nat),
    1 ≤ fuel → ceilPages t s + 2 - p ≤ fuel →
    ∃ st2 d2, fetchLoop sv a b c fuel p (ceilPages t s) st (some d) reqs =
      some (.ok (st2, d2), reqs ++ List.range' p (ceilPages t s + 1 - p)) := by
  intro fuel
  induction fuel with
  | zero => intro p st d reqs h1 hf; omega
  | succ fuel ih =>
    intro p st d reqs h1 hf
    by_cases hcond : p ≤ ceilPages t s
    · have hget : _get (sv p) = Except.ok (sv p).payload := by
        simp [_get, hstat p]
      obtain ⟨st2, d2, hrec⟩ := ih (p + 1) ((sv p).payload.issues.foldl
          (processIssue a b c) st) ((sv p).payload) (reqs ++ [p])
        (by omega) (by omega)
      refine ⟨st2, d2, ?_⟩
      simp only [fetchLoop, if_pos hcond, hget]
      rw [if_neg (by rw [hps p]; omega)]
      rw [ht p, hps p, hrec]
      congr 1
      have he2 : ceilPages t s + 1 - (p + 1) = ceilPages t s - p := by omega
      have he : ceilPages t s + 1 - p = (ceilPages t s - p) + 1 := by omega
      rw [he2, he, List.range'_succ, List.append_assoc, List.singleton_append]
    · have hz : ceilPages t s + 1 - p = 0 := by omega
      refine ⟨st, d, ?_⟩
      simp only [fetchLoop, if_neg hcond, hz, List.range'_zero, List.append_nil]

/-! ### Claim C2 -/

/-- C2: when every page of the run reports the same run-wide `total` and
positive page size `ps` (both re-read from each response), the pagination
loop terminates and requests exactly `max 1 (ceil(total / ps))` pages —
`ceil(total / ps)` pages, and at least one — namely pages
`1, 2, ..., max 1 (ceil(total / ps))`; in particular, when `total <= ps`
the ceiling is at most one and the loop stops after the first page. -/
theorem c2_pagination (sv : Nat → Resp IssuesPage) (a b c : Bool) (t s : Nat)
    (hs : 0 < s) (hstat : ∀ p, (sv p).status = 200)
    (ht : ∀ p, (sv p).payload.total = t) (hps : ∀ p, (sv p).payload.ps = s)
    (fuel : Nat) (hfuel : ceilPages t s + 2 ≤ fuel) :
    (∃ res, fetch_issues sv a b c fuel = some (Except.ok res,
      List.range' 1 (max 1 (ceilPages t s)))) ∧
    (t ≤ s → max 1 (ceilPages t s) = 1) := by
  constructor
  · obtain ⟨fuel1, rfl⟩ : ∃ f, fuel = f + 1 := by
      cases fuel with
      | zero => omega
      | succ f => exact ⟨f, rfl⟩
    have hget : _get (sv 1) = Except.ok (sv 1).payload := by
      simp [_get, hstat 1]
    have hloop1 : fetchLoop sv a b c (fuel1 + 1) 1 1 initFetchState none [] =
        fetchLoop sv a b c fuel1 2 (ceilPages t s)
          ((sv 1).payload.issues.foldl (processIssue a b c) initFetchState)
          (some ((sv 1).payload)) [1] := by
      simp only [fetchLoop, if_pos (le_refl 1), hget]
      rw [if_neg (by rw [hps 1]; omega)]
      rw [ht 1, hps 1]
      rfl
    obtain ⟨st2, d2, hrec⟩ := fetchLoop_steady sv a b c t s hs hstat ht hps
      fuel1 2 ((sv 1).payload.issues.foldl (processIssue a b c) initFetchState)
      ((sv 1).payload) [1] (by omega) (by omega)
    have hreqs : ([1] : List Nat) ++ List.range' 2 (ceilPages t s + 1 - 2) =
        List.range' 1 (max 1 (ceilPages t s)) := by
      by_cases hc : ceilPages t s ≤ 1
      · have h0 : ceilPages t s + 1 - 2 = 0 := by omega
        have h1 : max 1 (ceilPages t s) = 1 := by omega
        rw [h0, h1, List.range'_zero, List.append_nil]
        rfl
      · have h1 : max 1 (ceilPages t s) = ceilPages t s := by omega
        have h3 : ceilPages t s + 1 - 2 = ceilPages t s - 1 := by omega
        rw [h1, h3, List.singleton_append]
        rw [show List.range' 1 (ceilPages t s) =
          List.range' 1 ((ceilPages t s - 1) + 1) from by congr 1; omega]
        rw [List.range'_succ]
    refine ⟨(st2.issues, d2.effortTotal,
      match d2.debtTotal with | some d => d | none => d2.effortTotal), ?_⟩
    simp only [fetch_issues, hloop1, hrec, hreqs]
  · intro hts
    have hlt : (t + s - 1) / s < 2 := (Nat.div_lt_iff_lt_mul hs).mpr (by omega)
    have : ceilPages t s ≤ 1 := by
      simp only [ceilPages]
      omega
    omega

/-- C2, witness: total 3 at page size 2 terminates after exactly the two
pages 1, 2. -/
theorem c2_witness : ∃ res, fetch_issues c2Server false false false 4 =
    some (Except.ok res, [1, 2]) := by
  obtain ⟨res, hres⟩ := (c2_pagination c2Server false false false 3 2
    (by decide) (fun p => rfl) (fun p => rfl) (fun p => rfl) 4 (by decide)).1
  exact ⟨res, hres⟩

/-! ### Claim C8 -/

theorem fetchLoop_ok_last (sv : Nat → Resp IssuesPage) (a b c : Bool) :
    ∀ (fuel p tp : Nat) (st : FetchState) (last : Option IssuesPage)
      (reqs : List Nat) (st2 : FetchState) (data : IssuesPage)
      (reqs2 : List Nat),
    fetchLoop sv a b c fuel p tp st last reqs = some (.ok (st2, data), reqs2) →
    (∃ q, reqs2.getLast? = some q ∧ data = (sv q).payload) ∨
      (reqs2 = reqs ∧ last = some data) := by
  intro fuel
  induction fuel with
  | zero => intro p tp st last reqs st2 data reqs2 h; cases h
  | succ fuel ih =>
    intro p tp st last reqs st2 data reqs2 h
    simp only [fetchLoop] at h
    by_cases hcond : p ≤ tp
    · rw [if_pos hcond] at h
      cases hget : _get (sv p) with
      | error e => rw [hget] at h; cases h
      | ok d =>
        rw [hget] at h
        dsimp only at h
        by_cases hz : d.ps = 0
        · rw [if_pos hz] at h; cases h
        · rw [if_neg hz] at h
          have hd : d = (sv p).payload := by
            simp only [_get] at hget
            by_cases hst : (sv p).status = 200
            · rw [if_pos hst] at hget; cases hget; rfl
            · rw [if_neg hst] at hget; cases hget
          rcases ih _ _ _ _ _ _ _ _ h with h2 | ⟨h2, h3⟩
          · exact Or.inl h2
          · refine Or.inl ⟨p, ?_, ?_⟩
            · rw [h2]; simp
            · cases h3; rw [hd]
    · rw [if_neg hcond] at h
      cases last with
      | none => cases h
      | some d =>
        cases h
        exact Or.inr ⟨rfl, rfl⟩

/-- C8: a successful `fetch_issues` returns the effort total and the debt
total of the last fetched page's payload; when that payload lacks
`debtTotal`, the returned debt total is the payload's `effortTotal`, and
the absence is not fatal (the result is still a success). -/
theorem c8_effort_debt (sv : Nat → Resp IssuesPage) (a b c : Bool)
    (fuel : Nat) (st : FetchState) (data : IssuesPage) (reqs : List Nat)
    (h : fetchLoop sv a b c fuel 1 1 initFetchState none [] =
      some (.ok (st, data), reqs)) :
    fetch_issues sv a b c fuel = some (.ok (st.issues, data.effortTotal,
      match data.debtTotal with
      | some d => d
      | none => data.effortTotal), reqs) ∧
    (data.debtTotal = none → fetch_issues sv a b c fuel =
      some (.ok (st.issues, data.effortTotal, data.effortTotal), reqs)) ∧
    ∃ q, reqs.getLast? = some q ∧ data = (sv q).payload := by
  have h1 : fetch_issues sv a b c fuel = some (.ok (st.issues,
      data.effortTotal, match data.debtTotal with
      | some d => d
      | none => data.effortTotal), reqs) := by
    simp only [fetch_issues, h]
  refine ⟨h1, ?_, ?_⟩
  · intro hnone
    rw [h1, hnone]
  · rcases fetchLoop_ok_last sv a b c _ _ _ _ _ _ _ _ _ h with h2 | ⟨_, h3⟩
    · exact h2
    · cases h3

/-- C8, witness: a one-page run whose payload has no `debtTotal` returns
`effortTotal` (7) for both totals, without error. -/
theorem c8_witness : fetch_issues c8Server false false false 3 =
    some (.ok (([] : List (Str × IssueEntry)), (7 : Int), (7 : Int)), [1]) :=
  (c8_effort_debt c8Server false false false 3 initFetchState c8Page [1]
    (by decide)).2.1 rfl

/-! ### Claim C6 -/

/-- C6, counterexample: when the issue key "k" collected on page 1 (entry
with message "a") reappears on page 2 with different data (message "b"),
the accumulated mapping holds the *later* page's entry: `issues[key] =
issue_entry` is a plain dict assignment, which overwrites. -/
theorem c6_counterexample :
    fetch_issues c6Server false false false 4 =
      some (.ok ([("k".data, c6EntryB)], 0, 0), [1, 2]) ∧ c6EntryA ≠ c6EntryB := by
  constructor
  · rfl
  · decide

theorem lookup_map_overwrite {α : Type} (k : Str) (v : α) :
    ∀ d : List (Str × α), d.any (fun p => decide (p.1 = k)) = true →
    dictLookup (d.map (fun p => if p.1 = k then (k, v) else p)) k = some v := by
  intro d
  induction d with
  | nil => intro h; simp at h
  | cons p rest ih =>
    intro h
    by_cases hp : p.1 = k
    · rw [List.map_cons, if_pos hp]
      exact dictLookup_cons_eq (k, v) _ k rfl
    · rw [List.map_cons, if_neg hp]
      rw [dictLookup_cons_ne p (rest.map (fun q =>
        if q.1 = k then (k, v) else q)) k hp]
      apply ih
      simp only [List.any_cons, Bool.or_eq_true, decide_eq_true_eq] at h
      rcases h with h | h
      · exact absurd h hp
      · exact h

theorem lookup_append_single {α : Type} (k : Str) (v : α) :
    ∀ d : List (Str × α), d.any (fun p => decide (p.1 = k)) = false →
    dictLookup (d ++ [(k, v)]) k = some v := by
  intro d
  induction d with
  | nil =>
    intro _
    rw [List.nil_append]
    exact dictLookup_cons_eq (k, v) [] k rfl
  | cons p rest ih =>
    intro h
    simp only [List.any_cons, Bool.or_eq_false_iff] at h
    have hp : p.1 ≠ k := by
      intro he
      have h1 := h.1
      rw [he, decide_eq_true (rfl : k = k)] at h1
      exact Bool.noConfusion h1
    rw [List.cons_append, dictLookup_cons_ne p (rest ++ [(k, v)]) k hp]
    exact ih h.2

theorem dictInsert_lookup_self {α : Type} (d : List (Str × α)) (k : Str)
    (v : α) : dictLookup (dictInsert d k v) k = some v := by
  simp only [dictInsert]
  by_cases h : d.any (fun p => decide (p.1 = k)) = true
  · rw [if_pos h]
    exact lookup_map_overwrite k v d h
  · rw [if_neg h]
    exact lookup_append_single k v d (eq_false_of_ne_true h)

theorem lookup_map_ne {α : Type} (k k2 : Str) (v : α) (h : k2 ≠ k) :
    ∀ d : List (Str × α),
    dictLookup (d.map (fun p => if p.1 = k2 then (k2, v) else p)) k =
      dictLookup d k := by
  intro d
  induction d with
  | nil => rfl
  | cons p rest ih =>
    by_cases hp : p.1 = k2
    · rw [List.map_cons, if_pos hp]
      rw [dictLookup_cons_ne (k2, v) _ k h, dictLookup_cons_ne p rest k
        (by rw [hp]; exact h)]
      exact ih
    · rw [List.map_cons, if_neg hp]
      by_cases hpk : p.1 = k
      · rw [dictLookup_cons_eq p _ k hpk, dictLookup_cons_eq p rest k hpk]
      · rw [dictLookup_cons_ne p _ k hpk, dictLookup_cons_ne p rest k hpk]
        exact ih

theorem lookup_append_ne {α : Type} (k k2 : Str) (v : α) (h : k2 ≠ k) :
    ∀ d : List (Str × α), dictLookup (d ++ [(k2, v)]) k = dictLookup d k := by
  intro d
  induction d with
  | nil =>
    rw [List.nil_append, dictLookup_cons_ne (k2, v) [] k h]
  | cons p rest ih =>
    rw [List.cons_append]
    by_cases hpk : p.1 = k
    · rw [dictLookup_cons_eq p (rest ++ [(k2, v)]) k hpk,
        dictLookup_cons_eq p rest k hpk]
    · rw [dictLookup_cons_ne p (rest ++ [(k2, v)]) k hpk,
        dictLookup_cons_ne p rest k hpk]
      exact ih

theorem dictInsert_lookup_ne {α : Type} (d : List (Str × α)) (k k2 : Str)
    (v : α) (h : k2 ≠ k) : dictLookup (dictInsert d k2 v) k = dictLookup d k := by
  simp only [dictInsert]
  by_cases hany : d.any (fun p => decide (p.1 = k2)) = true
  · rw [if_pos hany]
    exact lookup_map_ne k k2 v h d
  · rw [if_neg hany]
    exact lookup_append_ne k k2 v h d

/-- C6, amended: during accumulation the entry stored at an issue key is the
*last* occurrence processed (later pages overwrite earlier identical keys,
last-write-wins); "never overwrites" holds only when each key occurs once. -/
theorem c6_amended_thm (es : List (Str × IssueEntry))
    (d : List (Str × IssueEntry)) (k : Str) :
    dictLookup (es.foldl (fun acc p => dictInsert acc p.1 p.2) d) k =
      match es.reverse.find? (fun p => decide (p.1 = k)) with
      | some p => some p.2
      | none => dictLookup d k := by
  induction es using List.reverseRecOn with
  | nil => rfl
  | append_singleton l a ih =>
    rw [List.foldl_append, List.reverse_append]
    simp only [List.foldl_cons, List.foldl_nil, List.reverse_singleton,
      List.singleton_append, List.find?_cons]
    by_cases ha : a.1 = k
    · rw [decide_eq_true ha]
      rw [show dictInsert (l.foldl (fun acc p => dictInsert acc p.1 p.2) d)
        a.1 a.2 = dictInsert (l.foldl (fun acc p => dictInsert acc p.1 p.2) d)
        k a.2 from by rw [ha]]
      exact dictInsert_lookup_self _ k a.2
    · rw [decide_eq_false ha]
      rw [dictInsert_lookup_ne _ k a.1 a.2 ha]
      exact ih

/-! ### Decimal rendering is injective (towards C4 and C10) -/

theorem digitChar_facts : ∀ d : Nat, d < 10 →
    (Nat.digitChar d).toNat - 48 = d ∧ Nat.digitChar d ≠ '.' := by
  intro d h
  interval_cases d <;> exact ⟨by decide, by decide⟩

theorem toDigitsCore_append : ∀ (fuel n : Nat) (acc : List Char),
    Nat.toDigitsCore 10 fuel n acc = Nat.toDigitsCore 10 fuel n [] ++ acc := by
  intro fuel
  induction fuel with
  | zero => intro n acc; rfl
  | succ fuel ih =>
    intro n acc
    simp only [Nat.toDigitsCore]
    by_cases h : n / 10 = 0
    · rw [if_pos h, if_pos h, List.singleton_append]
    · rw [if_neg h, if_neg h]
      rw [ih (n / 10) (Nat.digitChar (n % 10) :: acc),
        ih (n / 10) [Nat.digitChar (n % 10)]]
      rw [List.append_assoc, List.singleton_append]

theorem toDigitsCore_fuel : ∀ (n f g : Nat), n < f → n < g → ∀ acc,
    Nat.toDigitsCore 10 f n acc = Nat.toDigitsCore 10 g n acc := by
  intro n
  induction n using Nat.strong_induction_on with
  | _ n ih =>
    intro f g hf hg acc
    cases f with
    | zero => omega
    | succ f =>
      cases g with
      | zero => omega
      | succ g =>
        simp only [Nat.toDigitsCore]
        by_cases h : n / 10 = 0
        · rw [if_pos h, if_pos h]
        · rw [if_neg h, if_neg h]
          have hn10 : 10 ≤ n := by
            by_contra hlt
            push_neg at hlt
            exact h (Nat.div_eq_of_lt hlt)
          have hdiv : n / 10 < n := Nat.div_lt_self (by omega) (by omega)
          exact ih (n / 10) hdiv f g (by omega) (by omega) _

theorem decode_append_single (l : Str) (c : Char) :
    decodeDigits (l ++ [c]) = 10 * decodeDigits l + (c.toNat - 48) := by
  simp [decodeDigits, List.foldl_append]

theorem decode_toDigits : ∀ n : Nat, decodeDigits (Nat.toDigits 10 n) = n := by
  intro n
  induction n using Nat.strong_induction_on with
  | _ n ih =>
    by_cases h : n < 10
    · have h0 : n / 10 = 0 := Nat.div_eq_of_lt h
      simp only [Nat.toDigits, Nat.toDigitsCore]
      rw [if_pos h0, Nat.mod_eq_of_lt h]
      simp only [decodeDigits, List.foldl_cons, List.foldl_nil]
      have hd := (digitChar_facts n h).1
      omega
    · push_neg at h
      have h0 : n / 10 ≠ 0 := by
        intro hz
        rw [Nat.div_eq_zero_iff (by omega)] at hz
        omega
      simp only [Nat.toDigits, Nat.toDigitsCore]
      rw [if_neg h0]
      rw [toDigitsCore_append, decode_append_single]
      have hfuel : Nat.toDigitsCore 10 n (n / 10) [] =
          Nat.toDigits 10 (n / 10) := by
        simp only [Nat.toDigits]
        exact toDigitsCore_fuel (n / 10) n (n / 10 + 1)
          (Nat.div_lt_self (by omega) (by omega)) (by omega) []
      rw [hfuel, ih (n / 10) (Nat.div_lt_self (by omega) (by omega))]
      have hd := (digitChar_facts (n % 10) (Nat.mod_lt n (by omega))).1
      omega

theorem natRepr_inj (m n : Nat) (h : natRepr m = natRepr n) : m = n := by
  simp only [natRepr] at h
  have hm := decode_toDigits m
  rw [h, decode_toDigits n] at hm
  omega

theorem toDigits_chars : ∀ (fuel n : Nat) (acc : List Char) (c : Char),
    c ∈ Nat.toDigitsCore 10 fuel n acc →
    (∃ d, d < 10 ∧ c = Nat.digitChar d) ∨ c ∈ acc := by
  intro fuel
  induction fuel with
  | zero => intro n acc c h; exact Or.inr h
  | succ fuel ih =>
    intro n acc c h
    simp only [Nat.toDigitsCore] at h
    by_cases hz : n / 10 = 0
    · rw [if_pos hz] at h
      rcases List.mem_cons.mp h with rfl | h2
      · exact Or.inl ⟨n % 10, Nat.mod_lt n (by omega), rfl⟩
      · exact Or.inr h2
    · rw [if_neg hz] at h
      rcases ih (n / 10) (Nat.digitChar (n % 10) :: acc) c h with h2 | h2
      · exact Or.inl h2
      · rcases List.mem_cons.mp h2 with rfl | h3
        · exact Or.inl ⟨n % 10, Nat.mod_lt n (by omega), rfl⟩
        · exact Or.inr h3

theorem natRepr_no_dot (n : Nat) : ∀ c ∈ natRepr n, c ≠ '.' := by
  intro c hc
  rcases toDigits_chars (n + 1) n [] c hc with ⟨d, hd, rfl⟩ | h
  · exact (digitChar_facts d hd).2
  · simp at h

theorem append_dot_inj : ∀ (l₁ l₂ r₁ r₂ : Str),
    (∀ c ∈ l₁, c ≠ '.') → (∀ c ∈ l₂, c ≠ '.') →
    l₁ ++ '.' :: r₁ = l₂ ++ '.' :: r₂ → l₁ = l₂ ∧ r₁ = r₂ := by
  intro l₁
  induction l₁ with
  | nil =>
    intro l₂ r₁ r₂ _ h2 heq
    cases l₂ with
    | nil =>
      rw [List.nil_append, List.nil_append] at heq
      injection heq with _ ht
      exact ⟨rfl, ht⟩
    | cons c₂ l₂' =>
      rw [List.nil_append, List.cons_append] at heq
      injection heq with hc _
      exact absurd hc.symm (h2 c₂ (List.mem_cons_self c₂ l₂'))
  | cons c l₁' ih =>
    intro l₂ r₁ r₂ h1 h2 heq
    cases l₂ with
    | nil =>
      rw [List.nil_append, List.cons_append] at heq
      injection heq with hc _
      exact absurd hc (h1 c (List.mem_cons_self c l₁'))
    | cons c₂ l₂' =>
      rw [List.cons_append, List.cons_append] at heq
      injection heq with hc ht
      subst hc
      obtain ⟨hl, hr⟩ := ih l₂' r₁ r₂
        (fun z hz => h1 z (List.mem_cons_of_mem c hz))
        (fun z hz => h2 z (List.mem_cons_of_mem c hz)) ht
      exact ⟨by rw [hl], hr⟩

theorem mkAlias_inj (m n : Nat) (e₁ e₂ : Str) (h : mkAlias m e₁ = mkAlias n e₂) :
    m = n ∧ e₁ = e₂ := by
  simp only [mkAlias] at h
  rw [List.append_assoc, List.append_assoc] at h
  have h2 : natRepr m ++ '.' :: e₁ = natRepr n ++ '.' :: e₂ :=
    List.append_cancel_left h
  obtain ⟨hd, ht⟩ := append_dot_inj (natRepr m) (natRepr n) e₁ e₂
    (natRepr_no_dot m) (natRepr_no_dot n) h2
  exact ⟨natRepr_inj m n hd, ht⟩

/-! ### Pseudonymization state machine (towards C4 and C10) -/

theorem specAnonMap_append : ∀ (ds : List Str) (k0 : Nat) (c : Str),
    specAnonMap k0 (ds ++ [c]) =
      specAnonMap k0 ds ++ [(c, mkAlias (k0 + ds.length) (fileEnding c))] := by
  intro ds
  induction ds with
  | nil => intro k0 c; simp [specAnonMap]
  | cons d ds ih =>
    intro k0 c
    simp only [List.cons_append, specAnonMap, List.length_cons, List.append_eq]
    rw [ih (k0 + 1) c]
    have ha : k0 + 1 + ds.length = k0 + (ds.length + 1) := by omega
    rw [ha]

theorem specAnonMap_lookup_mem : ∀ (ds : List Str) (k0 : Nat) (c : Str),
    c ∈ ds → dictLookup (specAnonMap k0 ds) c =
      some (mkAlias (k0 + idxOf ds c) (fileEnding c)) := by
  intro ds
  induction ds with
  | nil => intro _ _ h; simp at h
  | cons d ds ih =>
    intro k0 c hc
    by_cases hdc : d = c
    · subst hdc
      have hidx : idxOf (d :: ds) d = 0 := by
        simp [idxOf, List.findIdx_cons]
      rw [hidx, Nat.add_zero]
      exact dictLookup_cons_eq (d, mkAlias k0 (fileEnding d))
        (specAnonMap (k0 + 1) ds) d rfl
    · have hc2 : c ∈ ds := by
        rcases List.mem_cons.mp hc with h | h
        · exact absurd h.symm hdc
        · exact h
      have hidx : idxOf (d :: ds) c = idxOf ds c + 1 := by
        simp only [idxOf, List.findIdx_cons]
        rw [decide_eq_false hdc]
        rfl
      rw [hidx]
      rw [show dictLookup (specAnonMap k0 (d :: ds)) c =
        dictLookup (specAnonMap (k0 + 1) ds) c from
        dictLookup_cons_ne (d, mkAlias k0 (fileEnding d)) _ c hdc]
      rw [ih (k0 + 1) c hc2]
      have ha : k0 + 1 + idxOf ds c = k0 + (idxOf ds c + 1) := by omega
      rw [ha]

theorem specAnonMap_lookup_not_mem : ∀ (ds : List Str) (k0 : Nat) (c : Str),
    c ∉ ds → dictLookup (specAnonMap k0 ds) c = none := by
  intro ds
  induction ds with
  | nil => intro _ _ _; rfl
  | cons d ds ih =>
    intro k0 c hc
    have hdc : d ≠ c := fun h => hc (h ▸ List.mem_cons_self d ds)
    rw [show dictLookup (specAnonMap k0 (d :: ds)) c =
      dictLookup (specAnonMap (k0 + 1) ds) c from
      dictLookup_cons_ne (d, mkAlias k0 (fileEnding d)) _ c hdc]
    exact ih (k0 + 1) c (fun h => hc (List.mem_cons_of_mem d h))

theorem idxOf_append_left : ∀ (l r : List Str) (c : Str), c ∈ l →
    idxOf (l ++ r) c = idxOf l c := by
  intro l
  induction l with
  | nil => intro r c h; simp at h
  | cons d l ih =>
    intro r c h
    by_cases hdc : d = c
    · simp [idxOf, List.findIdx_cons, hdc]
    · have hc2 : c ∈ l := by
        rcases List.mem_cons.mp h with h2 | h2
        · exact absurd h2.symm hdc
        · exact h2
      simp only [List.cons_append, idxOf, List.findIdx_cons]
      rw [decide_eq_false hdc]
      simp only [cond_false]
      have := ih r c hc2
      simp only [idxOf] at this
      omega

theorem idxOf_append_cons_self : ∀ (l : List Str) (c : Str) (r : List Str),
    c ∉ l → idxOf (l ++ c :: r) c = l.length := by
  intro l
  induction l with
  | nil =>
    intro c r _
    simp [idxOf, List.findIdx_cons]
  | cons d l ih =>
    intro c r hc
    have hdc : d ≠ c := fun h => hc (h ▸ List.mem_cons_self d l)
    simp only [List.cons_append, idxOf, List.findIdx_cons]
    rw [decide_eq_false hdc]
    simp only [cond_false, List.length_cons]
    have := ih c r (fun h => hc (List.mem_cons_of_mem d h))
    simp only [idxOf] at this
    omega

theorem nodup_concat : ∀ (ds : List Str) (c : Str), ds.Nodup → c ∉ ds →
    (ds ++ [c]).Nodup := by
  intro ds
  induction ds with
  | nil => intro c _ _; simp
  | cons d ds ih =>
    intro c hnd hc
    rw [List.cons_append, List.nodup_cons]
    rcases List.nodup_cons.mp hnd with ⟨hd, hnd2⟩
    refine ⟨?_, ih c hnd2 (fun h => hc (List.mem_cons_of_mem d h))⟩
    intro hmem
    rcases List.mem_append.mp hmem with h | h
    · exact hd h
    · rw [List.mem_singleton] at h
      exact hc (h ▸ List.mem_cons_self d ds)

theorem mem_firstSeenAux : ∀ (cs ds : List Str) (c : Str), c ∈ cs → c ∉ ds →
    c ∈ firstSeenAux ds cs := by
  intro cs
  induction cs with
  | nil => intro ds c h _; simp at h
  | cons x cs ih =>
    intro ds c hc hds
    by_cases hxc : x = c
    · subst hxc
      have hcont : ds.contains x = false := by
        by_cases h2 : ds.contains x = true
        · exact absurd (List.mem_of_elem_eq_true h2) hds
        · exact eq_false_of_ne_true h2
      simp [firstSeenAux, hcont]
      rw [if_neg hds]
      exact List.mem_cons_self x _
    · have hc2 : c ∈ cs := by
        rcases List.mem_cons.mp hc with h | h
        · exact absurd h.symm hxc
        · exact h
      simp only [firstSeenAux]
      by_cases hcont : ds.contains x = true
      · rw [if_pos hcont]
        exact ih ds c hc2 hds
      · rw [if_neg hcont]
        refine List.mem_cons_of_mem x (ih (ds ++ [x]) c hc2 ?_)
        intro hmem
        rcases List.mem_append.mp hmem with h | h
        · exact hds h
        · rw [List.mem_singleton] at h
          exact hxc h.symm

theorem anonaux_go : ∀ (cs ds : List Str) (k0 : Nat), ds.Nodup →
    anonaux ⟨specAnonMap k0 ds, k0 + ds.length⟩ cs =
      cs.map (fun c => mkAlias (k0 + idxOf (ds ++ firstSeenAux ds cs) c)
        (fileEnding c)) := by
  intro cs
  induction cs with
  | nil => intro ds k0 _; rfl
  | cons c cs ih =>
    intro ds k0 hnd
    by_cases hc : c ∈ ds
    · have hcont : ds.contains c = true := List.elem_eq_true_of_mem hc
      have hfs : firstSeenAux ds (c :: cs) = firstSeenAux ds cs := by
        simp only [firstSeenAux]
        rw [if_pos hcont]
      simp only [anonaux, anonComponent, specAnonMap_lookup_mem ds k0 c hc]
      rw [hfs, List.map_cons]
      have hidx : idxOf (ds ++ firstSeenAux ds cs) c = idxOf ds c :=
        idxOf_append_left ds _ c hc
      rw [hidx]
      exact congrArg _ (ih ds k0 hnd)
    · have hcont : ds.contains c = false := by
        by_cases h2 : ds.contains c = true
        · exact absurd (List.mem_of_elem_eq_true h2) hc
        · exact eq_false_of_ne_true h2
      have hfs : firstSeenAux ds (c :: cs) =
          c :: firstSeenAux (ds ++ [c]) cs := by
        simp only [firstSeenAux]
        rw [hcont]
        simp
      simp only [anonaux, anonComponent, specAnonMap_lookup_not_mem ds k0 c hc]
      rw [hfs, List.map_cons]
      have hidx : idxOf (ds ++ c :: firstSeenAux (ds ++ [c]) cs) c = ds.length :=
        idxOf_append_cons_self ds c _ hc
      rw [hidx]
      have hstate : (⟨specAnonMap k0 ds ++
          [(c, mkAlias (k0 + ds.length) (fileEnding c))],
          k0 + ds.length + 1⟩ : AnonState) =
          ⟨specAnonMap k0 (ds ++ [c]), k0 + (ds ++ [c]).length⟩ := by
        rw [specAnonMap_append ds k0 c]
        simp only [List.length_append, List.length_singleton]
        congr 1
      have ihc := ih (ds ++ [c]) k0 (nodup_concat ds c hnd hc)
      have hassoc : (ds ++ [c]) ++ firstSeenAux (ds ++ [c]) cs =
          ds ++ c :: firstSeenAux (ds ++ [c]) cs := by
        rw [List.append_assoc, List.singleton_append]
      rw [hassoc] at ihc
      refine congrArg₂ _ rfl ?_
      rw [show anonaux ⟨specAnonMap k0 ds ++
          [(c, mkAlias (k0 + ds.length) (fileEnding c))],
          k0 + ds.length + 1⟩ cs =
        anonaux ⟨specAnonMap k0 (ds ++ [c]), k0 + (ds ++ [c]).length⟩ cs from by
          rw [hstate]]
      exact ihc

theorem anonAliases_closed (cs : List Str) :
    anonAliases cs = cs.map (fun c =>
      mkAlias (1 + idxOf (firstSeen cs) c) (fileEnding c)) := by
  have h := anonaux_go cs [] 1 List.nodup_nil
  simpa [anonAliases, firstSeen, specAnonMap] using h

/-! ### Claim C4 -/

/-- C4, counterexample: over one whole run with two projects, the raw
paths `a.java` (project 1) and `b.java` (project 2) are distinct, yet both
receive the alias `file_1.java`: `fetch_issues` re-creates `file_names` and
`file_counter` on every call, so the mapping is per project, not per run. -/
theorem c4_counterexample :
    fetch_issues (c4Server ("a.java".data)) true false false 3 =
      some (.ok ([("k".data, c4EntryAnon)], 0, 0), [1]) ∧
    fetch_issues (c4Server ("b.java".data)) true false false 3 =
      some (.ok ([("k".data, c4EntryAnon)], 0, 0), [1]) ∧
    "a.java".data ≠ "b.java".data := by
  refine ⟨rfl, rfl, by decide⟩

/-- C4, amended: within a single `fetch_issues` call the alias assignment
is stable (the same raw path always yields the same alias), injective (two
distinct raw paths never collide), and of the form `file_<n>.<ext>` with
`n` assigned first-seen-wins starting at 1; across the run the mapping is
not shared — each project's fetch restarts it, so aliases repeat between
projects. -/
theorem c4_amended_thm (cs : List Str) (i j : Nat) (ci cj : Str)
    (hi : cs.get? i = some ci) (hj : cs.get? j = some cj) :
    (anonAliases cs).get? i =
      some (mkAlias (1 + idxOf (firstSeen cs) ci) (fileEnding ci)) ∧
    (ci = cj → (anonAliases cs).get? i = (anonAliases cs).get? j) ∧
    (ci ≠ cj → (anonAliases cs).get? i ≠ (anonAliases cs).get? j) := by
  have hclosed := anonAliases_closed cs
  have hgi : (anonAliases cs).get? i =
      some (mkAlias (1 + idxOf (firstSeen cs) ci) (fileEnding ci)) := by
    rw [hclosed, List.get?_map, hi]
    rfl
  have hgj : (anonAliases cs).get? j =
      some (mkAlias (1 + idxOf (firstSeen cs) cj) (fileEnding cj)) := by
    rw [hclosed, List.get?_map, hj]
    rfl
  refine ⟨hgi, ?_, ?_⟩
  · intro he
    rw [hgi, hgj, he]
  · intro hne heq
    rw [hgi, hgj] at heq
    obtain ⟨hcnt, _⟩ := mkAlias_inj _ _ _ _ (Option.some_injective _ heq)
    have hmi : ci ∈ firstSeen cs :=
      mem_firstSeenAux cs [] ci (List.get?_mem hi) (by simp)
    have hmj : cj ∈ firstSeen cs :=
      mem_firstSeenAux cs [] cj (List.get?_mem hj) (by simp)
    exact hne (idxOf_inj (firstSeen cs) ci cj hmi hmj (by omega))

/-- C4, witness: within one call, the path `a.java` occurring at positions
0 and 2 receives the same alias `file_1.java` both times. -/
theorem c4_witness :
    (anonAliases ["a.java".data, "b.txt".data, "a.java".data]).get? 0 =
      some ("file_1.java".data) ∧
    (anonAliases ["a.java".data, "b.txt".data, "a.java".data]).get? 0 =
      (anonAliases ["a.java".data, "b.txt".data, "a.java".data]).get? 2 := by
  have h := c4_amended_thm ["a.java".data, "b.txt".data, "a.java".data] 0 2
    ("a.java".data) ("a.java".data) rfl rfl
  exact ⟨h.1.trans (by decide), h.2.1 rfl⟩

/-! ### Claim C10 -/

/-- C10: within a single `fetch_issues` call the component-to-alias stream
is fully determined by that call's own component sequence: every occurrence
of `c` maps to `file_<1 + first-seen rank of c>.<ext(c)>` (stable,
first-seen-wins numbering starting at 1, created anew per call), distinct
components receive distinct aliases, and the first component always gets
counter 1. -/
theorem c10_per_call_aliases (cs : List Str) :
    anonAliases cs = cs.map (fun c =>
      mkAlias (1 + idxOf (firstSeen cs) c) (fileEnding c)) ∧
    (∀ c₁ ∈ cs, ∀ c₂ ∈ cs, c₁ ≠ c₂ →
      mkAlias (1 + idxOf (firstSeen cs) c₁) (fileEnding c₁) ≠
        mkAlias (1 + idxOf (firstSeen cs) c₂) (fileEnding c₂)) ∧
    (∀ c cs2, cs = c :: cs2 →
      (anonAliases cs).get? 0 = some (mkAlias 1 (fileEnding c))) := by
  refine ⟨anonAliases_closed cs, ?_, ?_⟩
  · intro c₁ h₁ c₂ h₂ hne heq
    obtain ⟨hcnt, _⟩ := mkAlias_inj _ _ _ _ heq
    have hm₁ : c₁ ∈ firstSeen cs := mem_firstSeenAux cs [] c₁ h₁ (by simp)
    have hm₂ : c₂ ∈ firstSeen cs := mem_firstSeenAux cs [] c₂ h₂ (by simp)
    exact hne (idxOf_inj (firstSeen cs) c₁ c₂ hm₁ hm₂ (by omega))
  · intro c cs2 hcs
    subst hcs
    rw [anonAliases_closed, List.get?_map]
    simp only [List.get?_cons_zero, Option.map_some]
    have hfs : firstSeen (c :: cs2) = c :: firstSeenAux [c] cs2 := by
      simp [firstSeen, firstSeenAux]
    rw [hfs]
    simp only [Option.map_some']
    have hidx : idxOf (c :: firstSeenAux [c] cs2) c = 0 := by
      simp [idxOf, List.findIdx_cons]
    rw [hidx]

/-- C10, witness: two distinct components in one call get `file_1`/`file_2`
aliases with their own extensions. -/
theorem c10_witness :
    anonAliases ["x.java".data, "y.py".data] =
      ["file_1.java".data, "file_2.py".data] ∧
    mkAlias (1 + idxOf (firstSeen ["x.java".data, "y.py".data])
        ("x.java".data)) (fileEnding ("x.java".data)) ≠
      mkAlias (1 + idxOf (firstSeen ["x.java".data, "y.py".data])
        ("y.py".data)) (fileEnding ("y.py".data)) := by
  have h := c10_per_call_aliases ["x.java".data, "y.py".data]
  exact ⟨h.1.trans (by decide), h.2.1 _ (by decide) _ (by decide) (by decide)⟩

/-! ### Claim C9 -/

theorem addComplexity_fold (start : Int) :
    ∀ (ms : List (List (Str × Str))) (cs : List (Option Int)),
    List.Forall₂ (fun m c? =>
      match dictLookup m ("Cyclomatic Complexity".data) with
      | none => c? = none
      | some v => ∃ i, pyInt? v = some i ∧ c? = some i) ms cs →
    ms.foldlM (fun tc m => addComplexity m tc) start =
      Except.ok (start + cs.reduceOption.sum) := by
  intro ms cs h
  induction h generalizing start with
  | nil =>
    simp only [List.foldlM_nil, List.reduceOption_nil, List.sum_nil,
      Int.add_zero]
    rfl
  | cons hrel hrest ih =>
    rename_i m c? ms2 cs2
    rw [List.foldlM_cons]
    cases hlk : dictLookup m ("Cyclomatic Complexity".data) with
    | none =>
      rw [hlk] at hrel
      subst hrel
      have hstep : addComplexity m start = .ok start := by
        simp only [addComplexity, hlk]
      rw [hstep]
      have h2 := ih start
      simp only [List.reduceOption_cons_of_none] at h2 ⊢
      simpa [Bind.bind, Except.bind] using h2
    | some v =>
      rw [hlk] at hrel
      obtain ⟨i, hp, rfl⟩ := hrel
      have hstep : addComplexity m start = .ok (start + i) := by
        simp only [addComplexity, hlk, hp]
      rw [hstep]
      have h2 := ih (start + i)
      simp only [List.reduceOption_cons_of_some, List.sum_cons] at h2 ⊢
      rw [show start + i + cs2.reduceOption.sum =
        start + (i + cs2.reduceOption.sum) from by omega] at h2
      simpa [Bind.bind, Except.bind] using h2

/-- C9: the cross-project cyclomatic-complexity total is the sum over
exactly those projects whose fetched metrics dictionary contains a
complexity value (a project lacking the key is skipped by the caught
`KeyError`, contributing nothing rather than zero-by-error); concretely,
with one project fetching complexity 10 and another omitting the
`complexity` measure, the roll-up of the two `fetch_metrics` results is 10. -/
theorem c9_complexity_rollup (ms : List (List (Str × Str)))
    (cs : List (Option Int))
    (h : List.Forall₂ (fun m c? =>
      match dictLookup m ("Cyclomatic Complexity".data) with
      | none => c? = none
      | some v => ∃ i, pyInt? v = some i ∧ c? = some i) ms cs) :
    ms.foldlM (fun tc m => addComplexity m tc) 0 =
      Except.ok (cs.reduceOption.sum) ∧
    (fetch_metrics c9Resp1 = .ok c9Dict1 ∧ fetch_metrics c9Resp2 = .ok c9Dict2 ∧
      addComplexity c9Dict1 0 = .ok 10 ∧ addComplexity c9Dict2 10 = .ok 10) := by
  constructor
  · have h2 := addComplexity_fold 0 ms cs h
    simpa using h2
  · exact ⟨rfl, rfl, rfl, rfl⟩

/-- C9, witness: the two-project roll-up over the fetched dictionaries sums
to exactly the 10 of the reporting project. -/
theorem c9_witness :
    [c9Dict1, c9Dict2].foldlM (fun tc m => addComplexity m tc) 0 =
      Except.ok (10 : Int) := by
  have h := (c9_complexity_rollup [c9Dict1, c9Dict2] [some 10, none]
    (List.Forall₂.cons ⟨10, rfl, rfl⟩
      (List.Forall₂.cons rfl List.Forall₂.nil))).1
  exact h.trans (by decide)

/-! ### Abort semantics (towards C3) -/

theorem _get_ok_inv {α : Type} (r : Resp α) (d : α) (h : _get r = .ok d) :
    r.status = 200 ∧ d = r.payload := by
  simp only [_get] at h
  by_cases hs : r.status = 200
  · rw [if_pos hs] at h
    cases h
    exact ⟨hs, rfl⟩
  · rw [if_neg hs] at h
    cases h

theorem _get_error_inv {α : Type} (r : Resp α) (e : Str)
    (h : _get r = .error e) :
    r.status ≠ 200 ∧ e = "Failed to fetch data: ".data ++ r.text := by
  simp only [_get] at h
  by_cases hs : r.status = 200
  · rw [if_pos hs] at h
    cases h
  · rw [if_neg hs] at h
    cases h
    exact ⟨hs, rfl⟩

theorem fetchLoop_status (sv2 : Nat → Resp IssuesPage) (a b c : Bool) :
    ∀ (fuel p tp : Nat) (st : FetchState) (last : Option IssuesPage)
      (reqs0 : List Nat) (outc : Except PyErr (FetchState × IssuesPage))
      (reqs2 : List Nat),
    fetchLoop sv2 a b c fuel p tp st last reqs0 = some (outc, reqs2) →
    ∃ new, reqs2 = reqs0 ++ new ∧
      (((∀ q ∈ new, (sv2 q).status = 200) ∧
          ∀ e, outc ≠ .error (.httpFail e)) ∨
        ∃ q qs, new = qs ++ [q] ∧ (∀ x ∈ qs, (sv2 x).status = 200) ∧
          (sv2 q).status ≠ 200 ∧
          outc = .error (.httpFail
            ("Failed to fetch data: ".data ++ (sv2 q).text))) := by
  intro fuel
  induction fuel with
  | zero => intro p tp st last reqs0 outc reqs2 h; cases h
  | succ fuel ih =>
    intro p tp st last reqs0 outc reqs2 h
    simp only [fetchLoop] at h
    by_cases hcond : p ≤ tp
    · rw [if_pos hcond] at h
      cases hget : _get (sv2 p) with
      | error e =>
        rw [hget] at h
        cases h
        obtain ⟨hbad, he⟩ := _get_error_inv (sv2 p) e hget
        refine ⟨[p], rfl, Or.inr ⟨p, [], rfl, by simp, hbad, ?_⟩⟩
        rw [he]
      | ok d =>
        rw [hget] at h
        dsimp only at h
        obtain ⟨hst, hd⟩ := _get_ok_inv (sv2 p) d hget
        by_cases hz : d.ps = 0
        · rw [if_pos hz] at h
          cases h
          refine ⟨[p], rfl, Or.inl ⟨?_, ?_⟩⟩
          · intro q hq
            rw [List.mem_singleton] at hq
            rw [hq]
            exact hst
          · intro e he
            cases he
        · rw [if_neg hz] at h
          obtain ⟨new2, hr, hcase⟩ := ih _ _ _ _ _ _ _ h
          refine ⟨p :: new2, ?_, ?_⟩
          · rw [hr, List.append_assoc, List.singleton_append]
          · rcases hcase with ⟨hall, hne⟩ | ⟨q, qs, hqs, hall, hbad, ho⟩
            · refine Or.inl ⟨?_, hne⟩
              intro q hq
              rcases List.mem_cons.mp hq with rfl | hq2
              · exact hst
              · exact hall q hq2
            · refine Or.inr ⟨q, p :: qs, ?_, ?_, hbad, ho⟩
              · rw [hqs, List.cons_append]
              · intro x hx
                rcases List.mem_cons.mp hx with rfl | hx2
                · exact hst
                · exact hall x hx2
    · rw [if_neg hcond] at h
      cases last with
      | none => cases h
      | some d =>
        cases h
        refine ⟨[], by simp, Or.inl ⟨by simp, ?_⟩⟩
        intro e he
        cases he

theorem fetch_issues_error_inv (sv2 : Nat → Resp IssuesPage) (a b c : Bool)
    (fuel : Nat) (e : PyErr) (reqs : List Nat)
    (h : fetch_issues sv2 a b c fuel = some (.error e, reqs)) :
    fetchLoop sv2 a b c fuel 1 1 initFetchState none [] = some (.error e, reqs) := by
  unfold fetch_issues at h
  cases hl : fetchLoop sv2 a b c fuel 1 1 initFetchState none [] with
  | none => rw [hl] at h; cases h
  | some r =>
    rw [hl] at h
    obtain ⟨outc, reqs2⟩ := r
    cases outc with
    | error e2 => cases h; rfl
    | ok r2 => cases h

theorem fetch_issues_ok_inv (sv2 : Nat → Resp IssuesPage) (a b c : Bool)
    (fuel : Nat) (res : List (Str × IssueEntry) × Int × Int) (reqs : List Nat)
    (h : fetch_issues sv2 a b c fuel = some (.ok res, reqs)) :
    ∃ st data, fetchLoop sv2 a b c fuel 1 1 initFetchState none [] =
      some (.ok (st, data), reqs) := by
  unfold fetch_issues at h
  cases hl : fetchLoop sv2 a b c fuel 1 1 initFetchState none [] with
  | none => rw [hl] at h; cases h
  | some r =>
    rw [hl] at h
    obtain ⟨outc, reqs2⟩ := r
    cases outc with
    | error e2 => cases h
    | ok r2 =>
      obtain ⟨st, data⟩ := r2
      cases h
      exact ⟨st, data, rfl⟩

theorem metricsStep_err (cat : List CatalogEntry) (ms : List (Str × Str))
    (m : Measure) (e : PyErr) (h : metricsStep cat ms m = .error e) :
    ∃ s, e = PyErr.exc s := by
  simp only [metricsStep] at h
  by_cases h1 : CONVERT_TO_GRADES.contains m.metric = true
  · rw [if_pos h1] at h
    cases hg : _convert_to_grade m.value with
    | some g => rw [hg] at h; cases h
    | none =>
      rw [hg] at h
      injection h with h2
      exact ⟨_, h2.symm⟩
  · rw [if_neg h1] at h
    by_cases h2 : PERCENTAGE_METRICS.contains m.metric = true
    · rw [if_pos h2] at h
      cases h
    · rw [if_neg h2] at h
      by_cases h3 : m.metric = "sqale_index".data
      · rw [if_pos h3] at h
        cases hi : pyInt? m.value with
        | some i => rw [hi] at h; cases h
        | none =>
          rw [hi] at h
          injection h with h4
          exact ⟨_, h4.symm⟩
      · rw [if_neg h3] at h
        cases h

theorem metricsFold_err (cat : List CatalogEntry) :
    ∀ (l : List Measure) (acc : List (Str × Str)) (e : PyErr),
    l.foldlM (metricsStep cat) acc = .error e → ∃ s, e = PyErr.exc s := by
  intro l
  induction l with
  | nil => intro acc e h; cases h
  | cons m l ih =>
    intro acc e h
    rw [List.foldlM_cons] at h
    cases hstep : metricsStep cat acc m with
    | error e2 =>
      rw [hstep] at h
      simp only [Bind.bind, Except.bind] at h
      cases h
      exact metricsStep_err cat acc m _ hstep
    | ok acc2 =>
      rw [hstep] at h
      simp only [Bind.bind, Except.bind] at h
      exact ih acc2 e h

theorem fetch_metrics_ok_status (r : Resp MeasuresPayload)
    (ms : List (Str × Str)) (h : fetch_metrics r = .ok ms) : r.status = 200 := by
  unfold fetch_metrics at h
  cases hg : _get r with
  | error e => rw [hg] at h; cases h
  | ok d => exact (_get_ok_inv r d hg).1

theorem fetch_metrics_http_inv (r : Resp MeasuresPayload) (e : Str)
    (h : fetch_metrics r = .error (.httpFail e)) :
    r.status ≠ 200 ∧ e = "Failed to fetch data: ".data ++ r.text := by
  unfold fetch_metrics at h
  cases hg : _get r with
  | error e2 =>
    rw [hg] at h
    have he : e = e2 := by
      injection h with hh
      injection hh with hh2
      exact hh2.symm
    rw [he]
    exact _get_error_inv r e2 hg
  | ok d =>
    rw [hg] at h
    obtain ⟨s, hs⟩ := metricsFold_err d.metrics d.measures [] _ h
    cases hs

theorem fetch_metrics_exc_status (r : Resp MeasuresPayload) (m : Str)
    (h : fetch_metrics r = .error (.exc m)) : r.status = 200 := by
  unfold fetch_metrics at h
  cases hg : _get r with
  | error e2 => rw [hg] at h; cases h
  | ok d => exact (_get_ok_inv r d hg).1

theorem tblStep_err (types : List Str) (acc : Str × Amounts)
    (it : Str × IssueEntry) (e : PyErr) (h : tblStep types acc it = .error e) :
    ∃ s, e = PyErr.exc s := by
  simp only [tblStep] at h
  split at h
  · injection h with h2
    exact ⟨_, h2.symm⟩
  · split at h
    · cases h
    · injection h with h2
      exact ⟨_, h2.symm⟩

theorem tblFold_err (types : List Str) :
    ∀ (l : List (Str × IssueEntry)) (acc : Str × Amounts) (e : PyErr),
    l.foldlM (tblStep types) acc = .error e → ∃ s, e = PyErr.exc s := by
  intro l
  induction l with
  | nil => intro acc e h; cases h
  | cons it l ih =>
    intro acc e h
    rw [List.foldlM_cons] at h
    cases hstep : tblStep types acc it with
    | error e2 =>
      rw [hstep] at h
      simp only [Bind.bind, Except.bind] at h
      cases h
      exact tblStep_err types acc it _ hstep
    | ok acc2 =>
      rw [hstep] at h
      simp only [Bind.bind, Except.bind] at h
      exact ih acc2 e h

theorem format_table_err (sevs types : List Str)
    (issues : List (Str × IssueEntry)) (e : PyErr)
    (h : _format_issue_table sevs types issues = .error e) :
    ∃ s, e = PyErr.exc s := by
  unfold _format_issue_table at h
  by_cases hall : issues.all (fun it => sevs.contains it.2.severity) = true
  · rw [if_pos hall] at h
    dsimp only at h
    split at h
    · rename_i e2 hfold
      cases h
      exact tblFold_err types _ _ _ hfold
    · cases h
  · rw [if_neg hall] at h
    injection h with h2
    exact ⟨_, h2.symm⟩

theorem format_issues_err (tplIssues : Str) (sevs types : List Str)
    (issues : List (Str × IssueEntry)) (metrics : List (Str × Str))
    (pid : Str) (inc : Bool) (e : PyErr)
    (h : format_issues tplIssues sevs types issues metrics pid inc = .error e) :
    ∃ s, e = PyErr.exc s := by
  unfold format_issues at h
  cases ht : _format_issue_table sevs types issues with
  | error e2 =>
    rw [ht] at h
    cases h
    exact format_table_err sevs types issues _ ht
  | ok r =>
    rw [ht] at h
    obtain ⟨tbl, am⟩ := r
    dsimp only at h
    cases hs : _format_severity_summary sevs types am with
    | none =>
      rw [hs] at h
      injection h with h2
      exact ⟨_, h2.symm⟩
    | some stbl =>
      rw [hs] at h
      cases h

theorem format_overall_err (tplOverall : Str) (sevs types : List Str)
    (total_overall : List (Str × Str)) (am : Amounts) (e : PyErr)
    (h : format_overall tplOverall sevs types total_overall am = .error e) :
    ∃ s, e = PyErr.exc s := by
  unfold format_overall at h
  cases hs : _format_severity_summary sevs types am with
  | none =>
    rw [hs] at h
    injection h with h2
    exact ⟨_, h2.symm⟩
  | some stbl =>
    rw [hs] at h
    cases h

theorem intMetric_err (metrics : List (Str × Str)) (name : Str) (e : PyErr)
    (h : intMetric metrics name = .error e) : ∃ s, e = PyErr.exc s := by
  simp only [intMetric] at h
  split at h
  · injection h with h2
    exact ⟨_, h2.symm⟩
  · split at h
    · injection h with h2
      exact ⟨_, h2.symm⟩
    · cases h

theorem addComplexity_err (metrics : List (Str × Str)) (tc : Int) (e : PyErr)
    (h : addComplexity metrics tc = .error e) : ∃ s, e = PyErr.exc s := by
  simp only [addComplexity] at h
  split at h
  · cases h
  · split at h
    · injection h with h2
      exact ⟨_, h2.symm⟩
    · cases h

theorem runLoop_inv (tpl : Templates) (sv : Server) (args : Args)
    (dateStr : Str) (fuel : Nat) :
    ∀ (projects : List Str) (tot : RunTotals) (reqs0 : List Req),
    (∀ r ∈ reqs0, reqStatus sv r = 200) → ∀ out,
    runLoop tpl sv args dateStr fuel projects tot reqs0 = some out →
    goodOut sv out := by
  intro projects
  induction projects with
  | nil =>
    intro tot reqs0 h200 out h
    simp only [runLoop] at h
    split at h
    · rename_i e hov
      cases h
      obtain ⟨m, rfl⟩ := format_overall_err _ _ _ _ _ _ hov
      exact Or.inr ⟨rfl, rfl, Or.inl ⟨h200, rfl⟩⟩
    · rename_i overall hov
      cases h
      exact Or.inl ⟨rfl, ⟨_, rfl⟩, h200, rfl⟩
  | cons project rest ih =>
    intro tot reqs0 h200 out h
    simp only [runLoop] at h
    split at h
    · cases h
    · rename_i e preqs hfi
      cases h
      cases e with
      | httpFail msg =>
        have hfl := fetch_issues_error_inv _ _ _ _ _ _ _ hfi
        obtain ⟨new, hnew, hcase⟩ :=
          fetchLoop_status _ _ _ _ _ _ _ _ _ _ _ _ hfl
        rcases hcase with ⟨_, hne⟩ | ⟨q, qs, hqs, hall, hbad, ho⟩
        · exact absurd rfl (hne msg)
        · have hmsg : msg = "Failed to fetch data: ".data
              ++ (sv.issuesResp project q).text := by
            first
            | (injection ho with ho2
               injection ho2 with ho3
               exact ho3)
            | (injection ho with ho2
               injection ho2)
            | injection ho
          refine Or.inr ⟨rfl, rfl, Or.inr ⟨Req.issuesReq project q, ?_, ?_, ?_⟩⟩
          · refine List.mem_append.mpr (Or.inr ?_)
            refine List.mem_map.mpr ⟨q, ?_, rfl⟩
            rw [List.nil_append] at hnew
            rw [hnew, hqs]
            exact List.mem_append.mpr (Or.inr (List.mem_singleton.mpr rfl))
          · exact hbad
          · simp only [errOut]
            rw [hmsg]
            rfl
      | exc msg =>
        have hfl := fetch_issues_error_inv _ _ _ _ _ _ _ hfi
        obtain ⟨new, hnew, hcase⟩ :=
          fetchLoop_status _ _ _ _ _ _ _ _ _ _ _ _ hfl
        rcases hcase with ⟨hall, _⟩ | ⟨q, qs, hqs, hall, hbad, ho⟩
        · refine Or.inr ⟨rfl, rfl, Or.inl ⟨?_, rfl⟩⟩
          intro r hr
          rcases List.mem_append.mp hr with hr1 | hr2
          · exact h200 r hr1
          · obtain ⟨q, hq, rfl⟩ := List.mem_map.mp hr2
            rw [List.nil_append] at hnew
            rw [hnew] at hq
            exact hall q hq
        · cases ho
    · rename_i issues effort debt preqs hfi
      obtain ⟨st0, data0, hloop⟩ := fetch_issues_ok_inv _ _ _ _ _ _ _ hfi
      obtain ⟨new, hnew, hcase⟩ :=
        fetchLoop_status _ _ _ _ _ _ _ _ _ _ _ _ hloop
      have hp200 : ∀ q ∈ preqs, (sv.issuesResp project q).status = 200 := by
        rcases hcase with ⟨hall, _⟩ | ⟨q, qs, hqs, hall, hbad, ho⟩
        · rw [List.nil_append] at hnew
          rw [hnew]
          exact hall
        · cases ho
      have hiq200 : ∀ r ∈ reqs0 ++ preqs.map (Req.issuesReq project),
          reqStatus sv r = 200 := by
        intro r hr
        rcases List.mem_append.mp hr with hr1 | hr2
        · exact h200 r hr1
        · obtain ⟨q, hq, rfl⟩ := List.mem_map.mp hr2
          exact hp200 q hq
      split at h
      · rename_i e hfm
        cases h
        cases e with
        | httpFail msg =>
          obtain ⟨hbadm, hmsg⟩ := fetch_metrics_http_inv _ _ hfm
          refine Or.inr ⟨rfl, rfl,
            Or.inr ⟨Req.measuresReq project, ?_, hbadm, ?_⟩⟩
          · exact List.mem_append.mpr (Or.inr (List.mem_singleton.mpr rfl))
          · simp only [errOut]
            rw [hmsg]
            rfl
        | exc msg =>
          have hm200 := fetch_metrics_exc_status _ _ hfm
          refine Or.inr ⟨rfl, rfl, Or.inl ⟨?_, rfl⟩⟩
          intro r hr
          rcases List.mem_append.mp hr with hr1 | hr2
          · exact hiq200 r hr1
          · rw [List.mem_singleton] at hr2
            rw [hr2]
            exact hm200
      · rename_i metrics hfm
        have hm200 := fetch_metrics_ok_status _ _ hfm
        have hr200 : ∀ r ∈ reqs0 ++ preqs.map (Req.issuesReq project)
            ++ [Req.measuresReq project], reqStatus sv r = 200 := by
          intro r hr
          rcases List.mem_append.mp hr with hr1 | hr2
          · exact hiq200 r hr1
          · rw [List.mem_singleton] at hr2
            rw [hr2]
            exact hm200
        split at h
        · rename_i e hfmt
          cases h
          obtain ⟨m, rfl⟩ := format_issues_err _ _ _ _ _ _ _ _ hfmt
          exact Or.inr ⟨rfl, rfl, Or.inl ⟨hr200, rfl⟩⟩
        · rename_i t amounts hfmt
          split at h
          · rename_i e hint
            cases h
            obtain ⟨m, rfl⟩ := intMetric_err _ _ _ hint
            exact Or.inr ⟨rfl, rfl, Or.inl ⟨hr200, rfl⟩⟩
          · rename_i hs hint
            split at h
            · rename_i e hloc
              cases h
              obtain ⟨m, rfl⟩ := intMetric_err _ _ _ hloc
              exact Or.inr ⟨rfl, rfl, Or.inl ⟨hr200, rfl⟩⟩
            · rename_i loc hloc
              split at h
              · rename_i e hcx
                cases h
                obtain ⟨m, rfl⟩ := addComplexity_err _ _ _ hcx
                exact Or.inr ⟨rfl, rfl, Or.inl ⟨hr200, rfl⟩⟩
              · rename_i tc hcx
                split at h
                · cases h
                  exact Or.inr ⟨rfl, rfl, Or.inl ⟨hr200, rfl⟩⟩
                · rename_i am hroll
                  exact ih _ _ hr200 out h

/-! ### Claim C3 -/

/-- C3: in every completed run, a zero exit wrote exactly one
`report.html` and every performed request was answered 200 (the full set of
requested projects succeeded); a nonzero exit wrote nothing; and whenever
some performed request was answered non-200, the run exited 1 without
writing anything, having printed exactly the server-provided error body of
the failing request ("Failed to fetch data: " + body). -/
theorem c3_abort_semantics (tpl : Templates) (sv : Server) (args : Args)
    (dateStr : Str) (fuel : Nat) (out : MainOut)
    (h : runMain tpl sv args dateStr fuel = some out) :
    (out.exitCode = 0 → (∃ d, out.written = [("report.html".data, d)]) ∧
      ∀ r ∈ out.requests, reqStatus sv r = 200) ∧
    (out.exitCode ≠ 0 → out.written = []) ∧
    ((∃ r ∈ out.requests, reqStatus sv r ≠ 200) →
      out.exitCode = 1 ∧ out.written = [] ∧
      ∃ rq ∈ out.requests, reqStatus sv rq ≠ 200 ∧
        out.printed = ["Failed to fetch data: ".data ++ reqText sv rq]) := by
  have hg : goodOut sv out :=
    runLoop_inv tpl sv args dateStr fuel args.projects (initTotals args) []
      (by intro r hr; cases hr) out h
  rcases hg with ⟨he, hw, hall, hp⟩ | ⟨he, hw, hsub⟩
  · refine ⟨fun _ => ⟨hw, hall⟩, ?_, ?_⟩
    · intro hne
      exact absurd he hne
    · intro ⟨r, hr, hbad⟩
      exact absurd (hall r hr) hbad
  · refine ⟨?_, fun _ => hw, ?_⟩
    · intro h0
      rw [he] at h0
      cases h0
    · intro ⟨r, hr, hbad⟩
      rcases hsub with ⟨hall, _⟩ | ⟨rq, hrq, hrqbad, hprint⟩
      · exact absurd (hall r hr) hbad
      · exact ⟨he, hw, rq, hrq, hrqbad, hprint⟩

/-- C3, witness: a run whose first request is answered 500 with body
"boom" exits 1, prints the body, and writes no report. -/
theorem c3_witness :
    runMain c3Tpl c3Server c3Args ("D".data) 3 = some c3Out ∧
    c3Out.written = [] ∧ c3Out.exitCode = 1 ∧
    c3Out.printed = ["Failed to fetch data: ".data
      ++ reqText c3Server (Req.issuesReq ("p1".data) 1)] := by
  have h : runMain c3Tpl c3Server c3Args ("D".data) 3 = some c3Out := by decide
  have hc := c3_abort_semantics c3Tpl c3Server c3Args ("D".data) 3 c3Out h
  obtain ⟨he, hwr, rq, hrq, hbad, hprint⟩ := hc.2.2
    ⟨Req.issuesReq ("p1".data) 1, by decide, by decide⟩
  have hrqeq : rq = Req.issuesReq ("p1".data) 1 := by
    have h2 := hrq
    simp only [c3Out, List.mem_singleton] at h2
    exact h2
  exact ⟨h, hwr, he, by rw [hprint, hrqeq]⟩
